import Mathlib

/-
Verification development for the horizon-call-extractor parsing core.

The Python sources under src/aws_lambda are embedded shallowly over
`List Char`:

  * text_normalize.py   \u2014 PDF-artifact normalizer
  * lambda_function.py  \u2014 date parsing, filter-range matching, row filtering
                          and the post-processing loop of _process_pdf_key
  * parser_horizon.py   \u2014 the Horizon line scanner (identifier merging,
                          overview-block parsing, per-topic dedup, sorting)
  * parser_edf.py       \u2014 the EDF line scanner

Python regexes are embedded as direct character scanners that reproduce the
leftmost-match / greedy-with-backtracking semantics of each concrete pattern
(analysed pattern by pattern; the relevant backtracking cases are noted at
each definition).  Python `float` values produced by the parsers are modelled
as `ℚ`: every numeric literal the parsers accept is a short decimal, and the
comparisons the code performs on them (`<`, `==`, `min`) agree with the
rational semantics on all inputs exercised here.  Python `None` is `Option`.

Loops are embedded as fuel-indexed recursions; every loop in the source
advances its index by at least one per iteration, so fuel equal to the input
length makes the embedding total and equal to the source loop.
-/

set_option maxHeartbeats 2000000
set_option synthInstance.maxSize 512
set_option maxRecDepth 8000

namespace HCE

/-- Character class of Python's `\w` on ASCII input: letters, digits, `_`.
(The sources only ever match ASCII identifiers/numbers with `\w`.) -/
def isWordChar (c : Char) : Bool :=
  c.isAlpha || c.isDigit || c = '_'

/-- Character class of Python's `\s` / `str.isspace` (the whitespace code
points that can occur in the texts handled here). -/
def isPySpace (c : Char) : Bool :=
  c = ' ' || c = '\t' || c = '\n' || c = '\r' || c = '\x0b' || c = '\x0c' ||
  c = '\x1c' || c = '\x1d' || c = '\x1e' || c = '\x1f' || c = '\x85' ||
  c = '\u00A0' || c = '\u2028' || c = '\u2029'

/-- ASCII letter test (`[A-Za-z]`). -/
def isAsciiLetter (c : Char) : Bool := c.isAlpha

/-- ASCII alphanumeric test (`[A-Za-z0-9]`). -/
def isAsciiAlnum (c : Char) : Bool := c.isAlpha || c.isDigit

/-- ASCII uppercase-or-digit test (`[A-Z0-9]`). -/
def isUpperDigit (c : Char) : Bool := ('A' ≤ c && c ≤ 'Z') || c.isDigit

/-- ASCII lowercase test (`[a-z]`). -/
def isAsciiLower (c : Char) : Bool := 'a' ≤ c && c ≤ 'z'

/-- ASCII uppercase test (`[A-Z]`). -/
def isAsciiUpper (c : Char) : Bool := 'A' ≤ c && c ≤ 'Z'

/-- Python `str.lower` on the ASCII range (the only range the sources
lowercase). -/
def lowerChar (c : Char) : Char :=
  if isAsciiUpper c then Char.ofNat (c.toNat + 32) else c

/-- Python `str.upper` on the ASCII range. -/
def upperChar (c : Char) : Char :=
  if isAsciiLower c then Char.ofNat (c.toNat - 32) else c

def lowerStr (s : List Char) : List Char := s.map lowerChar

def upperStr (s : List Char) : List Char := s.map upperChar

/-- Case-insensitive character equality (ASCII). -/
def eqCI (a b : Char) : Bool := lowerChar a = lowerChar b

/-- Case-insensitive literal-prefix test. -/
def isPrefixCI (pat s : List Char) : Bool :=
  match pat, s with
  | [], _ => true
  | _ :: _, [] => false
  | p :: ps, c :: cs => eqCI p c && isPrefixCI ps cs

/-- Python `str.strip()` (no arguments): trim `\s` from both ends. -/
def pstrip (s : List Char) : List Char :=
  ((s.dropWhile isPySpace).reverse.dropWhile isPySpace).reverse

/-- Python `str.lstrip()`. -/
def plstrip (s : List Char) : List Char := s.dropWhile isPySpace

/-- Python `str.rstrip()`. -/
def prstrip (s : List Char) : List Char :=
  (s.reverse.dropWhile isPySpace).reverse

/-- Python `str.rstrip(chars)`: trim any of `cs` from the right end. -/
def prstripChars (s : List Char) (cs : List Char) : List Char :=
  (s.reverse.dropWhile (fun c => cs.contains c)).reverse

/-- Python `str.strip(chars)`: trim any of `cs` from both ends. -/
def pstripChars (s : List Char) (cs : List Char) : List Char :=
  ((s.dropWhile (fun c => cs.contains c)).reverse.dropWhile
    (fun c => cs.contains c)).reverse

/-- Substring containment (Python `in`). -/
def containsSub (hay needle : List Char) : Bool :=
  match hay with
  | [] => needle.isEmpty
  | _ :: rest => needle.isPrefixOf hay || containsSub rest needle

/-- Case-insensitive substring containment. -/
def containsSubCI (hay needle : List Char) : Bool :=
  containsSub (lowerStr hay) (lowerStr needle)

/-- Python `str.replace(pat, rep)`: replace all occurrences, scanning left to
right without overlap.  `pat` is nonempty in every use below. -/
def replaceAllGo : Nat → List Char → List Char → List Char → List Char
  | 0, s, _, _ => s
  | _ + 1, [], _, _ => []
  | fuel + 1, c :: rest, pat, rep =>
    if pat.isPrefixOf (c :: rest) then
      rep ++ replaceAllGo fuel ((c :: rest).drop pat.length) pat rep
    else
      c :: replaceAllGo fuel rest pat rep

def replaceAll (s pat rep : List Char) : List Char :=
  replaceAllGo s.length s pat rep

/-- Python `re.sub(r"\s+", " ", s)`: collapse every whitespace run to one
space. -/
def collapseWsGo : Nat → List Char → List Char
  | 0, s => s
  | _ + 1, [] => []
  | fuel + 1, c :: rest =>
    if isPySpace c then
      ' ' :: collapseWsGo fuel (rest.dropWhile isPySpace)
    else
      c :: collapseWsGo fuel rest

def collapseWs (s : List Char) : List Char := collapseWsGo s.length s

/-- Whitespace-collapse then strip: the `re.sub(r"\s+", " ", s).strip()`
idiom used throughout the sources. -/
def normWs (s : List Char) : List Char := pstrip (collapseWs s)

/-- Python `str.split()` with no separator: whitespace-separated words,
empties dropped. -/
def psplitGo : Nat → List Char → List (List Char)
  | 0, _ => []
  | _ + 1, [] => []
  | fuel + 1, s =>
    let s := s.dropWhile isPySpace
    match s with
    | [] => []
    | c :: rest =>
      let w := (c :: rest).takeWhile (fun d => ¬ isPySpace d)
      w :: psplitGo fuel ((c :: rest).dropWhile (fun d => ¬ isPySpace d))

def psplit (s : List Char) : List (List Char) := psplitGo s.length s

/-- Python `str.split(sep, 1)`: split at the first occurrence of `sep`
(modelled for single-character separators, the only form the sources use).
Returns `none` when `sep` does not occur. -/
def psplitOnce (s : List Char) (sep : Char) : Option (List Char × List Char) :=
  if s.contains sep then
    some (s.takeWhile (fun c => c ≠ sep), (s.dropWhile (fun c => c ≠ sep)).drop 1)
  else none

/-- Python `str.splitlines()` on the line-break code points that occur in the
inputs handled here (`\n`, `\r\n`, `\r`, `\x0b`, `\x0c`, `\x1c`\u2013`\x1e`,
`\x85`, `\u2028`, `\u2029`). -/
def isLineBreakChar (c : Char) : Bool :=
  c = '\n' || c = '\r' || c = '\x0b' || c = '\x0c' || c = '\x1c' ||
  c = '\x1d' || c = '\x1e' || c = '\x85' || c = '\u2028' || c = '\u2029'

def splitlinesGo : Nat → List Char → List Char → List (List Char)
  | 0, acc, _ => [acc.reverse]
  | _ + 1, acc, [] => if acc.isEmpty then [] else [acc.reverse]
  | fuel + 1, acc, c :: rest =>
    if c = '\r' then
      match rest with
      | '\n' :: rest' => acc.reverse :: splitlinesGo fuel [] rest'
      | _ => acc.reverse :: splitlinesGo fuel [] rest
    else if isLineBreakChar c then
      acc.reverse :: splitlinesGo fuel [] rest
    else
      splitlinesGo fuel (c :: acc) rest

def splitlines (s : List Char) : List (List Char) :=
  if s.isEmpty then [] else splitlinesGo s.length [] s

/-- Split on `\n` only (Python `re.split(r"\n", text)` / `text.split("\n")`);
unlike `splitlines` this yields a trailing empty piece after a final `\n`. -/
def splitNlGo : Nat → List Char → List Char → List (List Char)
  | 0, acc, _ => [acc.reverse]
  | _ + 1, acc, [] => [acc.reverse]
  | fuel + 1, acc, c :: rest =>
    if c = '\n' then acc.reverse :: splitNlGo fuel [] rest
    else splitNlGo fuel (c :: acc) rest

def splitNl (s : List Char) : List (List Char) := splitNlGo s.length [] s

/-- String-literal characters, the bridge from Lean string literals to the
`List Char` the embedding computes on. -/
def chars (s : String) : List Char := s.data

/- ===================================================================
   text_normalize.py
   =================================================================== -/

/-- Code points removed by `INVISIBLE_PDF_CHARS = [\u00AD\uFFFD\uFFFE\uFFFF]`. -/
def isInvisiblePdfChar (c : Char) : Bool :=
  c = '\u00AD' || c = '\uFFFD' || c = '\uFFFE' || c = '\uFFFF'

/-- The hyphen-variant class of `HYPHEN_LINE_BREAK`:
`[\-\u2010\u2011\u2012\u2013\u2014]`. -/
def isHyphenVariant (c : Char) : Bool :=
  c = '-' || c = '\u2010' || c = '\u2011' || c = '\u2012' || c = '\u2013' ||
  c = '\u2014'

/-- One attempted match of the tail of `HYPHEN_LINE_BREAK` after an
alphanumeric character: a hyphen variant, then `\s*\n\s*` (a whitespace run
containing at least one newline), then an alphanumeric character.  Returns
the joined character and the rest of the input. -/
def hyphenBreakTail (s : List Char) : Option (Char × List Char) :=
  match s with
  | h :: rest =>
    if isHyphenVariant h then
      let ws := rest.takeWhile isPySpace
      let rest' := rest.dropWhile isPySpace
      if ws.contains '\n' then
        match rest' with
        | c2 :: rest'' => if isAsciiAlnum c2 then some (c2, rest'') else none
        | [] => none
      else none
    else none
  | [] => none

/-- `HYPHEN_LINE_BREAK.sub(r"\1-\2", text)`: left-to-right non-overlapping
substitution; after a match the scan resumes after the second captured
character. -/
def hyphenLineBreakSubGo : Nat → List Char → List Char
  | 0, s => s
  | _ + 1, [] => []
  | fuel + 1, c :: rest =>
    if isAsciiAlnum c then
      match hyphenBreakTail rest with
      | some (c2, rest') => c :: '-' :: c2 :: hyphenLineBreakSubGo fuel rest'
      | none => c :: hyphenLineBreakSubGo fuel rest
    else
      c :: hyphenLineBreakSubGo fuel rest

def hyphenLineBreakSub (s : List Char) : List Char :=
  hyphenLineBreakSubGo s.length s

/-- `_SUFFIXES` from text_normalize.py. -/
def tnSuffixes : List (List Char) :=
  [chars "ing", chars "tion", chars "sion", chars "ment", chars "ments",
   chars "ness", chars "ity", chars "able", chars "ible", chars "al",
   chars "ic", chars "ive", chars "ous", chars "ants", chars "ant",
   chars "ers", chars "er", chars "ed", chars "ly", chars "ways",
   chars "way", chars "ism", chars "ist", chars "ation", chars "ations",
   chars "ions", chars "ent", chars "ents"]

/-- `_MIDDLE_JOINERS = {"and", "or"}`. -/
def tnMiddleJoiners : List (List Char) := [chars "and", chars "or"]

/-- `_merge_case`: lowercase the second fragment when both fragments are
capitalized words (`Xxx` shape; a 1-letter first fragment is not `Xxx`
because Python's `"".islower()` is false). -/
def isCapWord (w : List Char) : Bool :=
  match w with
  | c :: rest => isAsciiUpper c && rest ≠ [] && rest.all isAsciiLower
  | [] => false

def mergeCase (first second : List Char) : List Char :=
  if isCapWord first && isCapWord second then first ++ lowerStr second
  else first ++ second

/-- Match helper: a maximal ASCII-letter run and the remainder. -/
def letterRun (s : List Char) : List Char × List Char :=
  (s.takeWhile isAsciiLetter, s.dropWhile isAsciiLetter)

/-- Boundary test for `\b` after a letter run: end of input or a non-word
character. -/
def bAfter (s : List Char) : Bool :=
  match s with
  | [] => true
  | c :: _ => ¬ isWordChar c

/-- The triplet rewrite
`re.sub(r"\b([A-Za-z]{4,})\s+(and|or)\s+([A-Za-z]{2,6})\b", _merge_triplet, text, flags=IGNORECASE)`.
A match needs: a maximal letter run `first` of length ≥ 4 starting at a word
boundary, whitespace, a complete word `and`/`or` (case-insensitive),
whitespace, then a maximal letter run `last` of length 2\u20136 ending at a word
boundary.  `_merge_triplet` merges only when `len(first) ≥ 5` and
`last.lower()` is a known suffix.  `prevWord` tracks whether the previous
character was a word character (no `\b` there). -/
def mergeTripletRepl (first middle last : List Char) (ws1 ws2 : List Char) :
    List Char :=
  if first.length < 5 || ¬ (tnMiddleJoiners.contains (lowerStr middle)) ||
      ¬ (tnSuffixes.contains (lowerStr last)) then
    first ++ ws1 ++ middle ++ ws2 ++ last
  else
    let tail := middle ++ last
    let tail := if isCapWord first then lowerStr tail else tail
    first ++ tail

def collapseTripletGo : Nat → Bool → List Char → List Char
  | 0, _, s => s
  | _ + 1, _, [] => []
  | fuel + 1, prevWord, c :: rest =>
    if isAsciiLetter c && ¬ prevWord then
      let (first, afterFirst) := letterRun (c :: rest)
      let tryRest :=
        if first.length < 4 then none
        else
          let ws1 := afterFirst.takeWhile isPySpace
          let afterWs1 := afterFirst.dropWhile isPySpace
          if ws1.isEmpty then none
          else
            let (middle, afterMiddle) := letterRun afterWs1
            if ¬ (lowerStr middle = chars "and" || lowerStr middle = chars "or")
            then none
            else
              let ws2 := afterMiddle.takeWhile isPySpace
              let afterWs2 := afterMiddle.dropWhile isPySpace
              if ws2.isEmpty then none
              else
                let (last, afterLast) := letterRun afterWs2
                if 2 ≤ last.length && last.length ≤ 6 && bAfter afterLast then
                  some (mergeTripletRepl first middle last ws1 ws2, afterLast)
                else none
      match tryRest with
      | some (out, afterLast) => out ++ collapseTripletGo fuel true afterLast
      | none => first ++ collapseTripletGo fuel true afterFirst
    else
      c :: collapseTripletGo fuel (isWordChar c) rest

/-- The pair rewrite
`re.sub(r"\b([A-Za-z]{3,})\s+([A-Za-z]{2,6})\b", _merge_pair, text)`:
first run ≥ 3 letters at a boundary, whitespace, second run 2\u20136 letters
ending at a boundary.  `_merge_pair` merges only when `second.lower()` is a
known suffix (the `len(first) < 3` guard never fires: the pattern already
requires 3). -/
def mergePairRepl (first second ws : List Char) : List Char :=
  if ¬ (tnSuffixes.contains (lowerStr second)) || first.length < 3 then
    first ++ ws ++ second
  else
    mergeCase first second

def collapsePairGo : Nat → Bool → List Char → List Char
  | 0, _, s => s
  | _ + 1, _, [] => []
  | fuel + 1, prevWord, c :: rest =>
    if isAsciiLetter c && ¬ prevWord then
      let (first, afterFirst) := letterRun (c :: rest)
      let tryRest :=
        if first.length < 3 then none
        else
          let ws := afterFirst.takeWhile isPySpace
          let afterWs := afterFirst.dropWhile isPySpace
          if ws.isEmpty then none
          else
            let (second, afterSecond) := letterRun afterWs
            if 2 ≤ second.length && second.length ≤ 6 && bAfter afterSecond then
              some (mergePairRepl first second ws, afterSecond)
            else none
      match tryRest with
      | some (out, afterSecond) => out ++ collapsePairGo fuel true afterSecond
      | none => first ++ collapsePairGo fuel true afterFirst
    else
      c :: collapsePairGo fuel (isWordChar c) rest

/-- `_collapse_broken_word_fragments`: the triplet rewrite, then the pair
rewrite on its output. -/
def collapse_broken_word_fragments (s : List Char) : List Char :=
  let s := collapseTripletGo s.length false s
  collapsePairGo s.length false s

/-- One pass of a `\b p₁ \s* p₂ \s* p₃ \b`-shaped case-insensitive fix from
`_apply_known_fixes` (e.g. `\bresp\s*on\s*ses\b` → `responses`). -/
def knownFixMatch (p1 p2 p3 : List Char) (s : List Char) :
    Option (List Char) :=
  if isPrefixCI p1 s then
    let s1 := (s.drop p1.length).dropWhile isPySpace
    if isPrefixCI p2 s1 then
      let s2 := (s1.drop p2.length).dropWhile isPySpace
      if isPrefixCI p3 s2 then
        let s3 := s2.drop p3.length
        if bAfter s3 then some s3 else none
      else none
    else none
  else none

def knownFixGo : Nat → List Char → List Char → List Char → List Char →
    Bool → List Char → List Char
  | 0, _, _, _, _, _, s => s
  | _ + 1, _, _, _, _, _, [] => []
  | fuel + 1, p1, p2, p3, rep, prevWord, c :: rest =>
    if isAsciiLetter c && ¬ prevWord then
      match knownFixMatch p1 p2 p3 (c :: rest) with
      | some after => rep ++ knownFixGo fuel p1 p2 p3 rep true after
      | none => c :: knownFixGo fuel p1 p2 p3 rep true rest
    else
      c :: knownFixGo fuel p1 p2 p3 rep (isWordChar c) rest

def knownFix (p1 p2 p3 rep s : List Char) : List Char :=
  knownFixGo s.length p1 p2 p3 rep false s

/-- `_apply_known_fixes`: the five sequential substitutions. -/
def apply_known_fixes (s : List Char) : List Char :=
  let s := knownFix (chars "resp") (chars "on") (chars "ses")
    (chars "responses") s
  let s := knownFix (chars "resp") (chars "on") (chars "ders")
    (chars "responders") s
  let s := knownFix (chars "envir") (chars "on") (chars "ments")
    (chars "environments") s
  let s := knownFix (chars "pers") (chars "on") (chars "alised")
    (chars "personalised") s
  knownFix (chars "pers") (chars "on") (chars "alized")
    (chars "personalized") s

/-- `re.sub(r"\s*\n+\s*", " ", text)`: every maximal whitespace run that
contains a newline becomes one space; whitespace runs without a newline are
untouched. -/
def collapseNlRunsGo : Nat → List Char → List Char
  | 0, s => s
  | _ + 1, [] => []
  | fuel + 1, c :: rest =>
    if isPySpace c then
      let run := (c :: rest).takeWhile isPySpace
      let rest' := (c :: rest).dropWhile isPySpace
      if run.contains '\n' then ' ' :: collapseNlRunsGo fuel rest'
      else run ++ collapseNlRunsGo fuel rest'
    else
      c :: collapseNlRunsGo fuel rest

def collapseNlRuns (s : List Char) : List Char := collapseNlRunsGo s.length s

/-- `normalize_pdf_text(value, preserve_newlines=...)` from
text_normalize.py. -/
def normalize_pdf_text (value : List Char) (preserve_newlines : Bool := false) :
    List Char :=
  if value.isEmpty then []
  else
    let text := value.map (fun c => if c = '\u00A0' then ' ' else c)
    let text := text.filter (fun c => ¬ isInvisiblePdfChar c)
    let text := replaceAll text (chars "\r\n") (chars "\n")
    let text := replaceAll text (chars "\r") (chars "\n")
    let text := hyphenLineBreakSub text
    if preserve_newlines then
      let lines := (splitNl text).map pstrip
      let cleaned := lines.map (fun ln =>
        if ln.isEmpty then [] else collapse_broken_word_fragments ln)
      let text := (cleaned.intersperse (chars "\n")).flatten
      pstrip (apply_known_fixes text)
    else
      let text := collapseNlRuns text
      let text := collapse_broken_word_fragments text
      let text := apply_known_fixes text
      pstrip (collapseWs text)

/- ===================================================================
   lambda_function.py \u2014 dates, filter ranges, date-filter matching
   =================================================================== -/

/-- A Python `datetime.date` value (construction validity handled by
`mkDate`). -/
structure PyDate where
  year : Nat
  month : Nat
  day : Nat
deriving DecidableEq, Repr

/-- Python `date` comparison (calendar order = lexicographic on
year/month/day). -/
def dateLtB (a b : PyDate) : Bool :=
  a.year < b.year ||
  (a.year = b.year && (a.month < b.month ||
    (a.month = b.month && a.day < b.day)))

def dateLeB (a b : PyDate) : Bool := ¬ dateLtB b a

/-- `calendar.isleap`. -/
def isleap (y : Nat) : Bool :=
  y % 4 = 0 && (y % 100 ≠ 0 || y % 400 = 0)

/-- Days in a month for `1 ≤ m ≤ 12`. -/
def daysInMonth (y m : Nat) : Nat :=
  if m = 2 then (if isleap y then 29 else 28)
  else if m = 4 || m = 6 || m = 9 || m = 11 then 30
  else 31

/-- `calendar.monthrange(y, m)[1]`; raises (here: `none`) outside 1\u201312. -/
def monthrange (y m : Nat) : Option Nat :=
  if 1 ≤ m && m ≤ 12 then some (daysInMonth y m) else none

/-- `datetime.date(y, m, d)`: `none` models the `ValueError` the callers
catch (`MINYEAR = 1`; all years parsed below have at most 4 digits). -/
def mkDate (y m d : Nat) : Option PyDate :=
  if 1 ≤ y && y ≤ 9999 && 1 ≤ m && m ≤ 12 && 1 ≤ d && d ≤ daysInMonth y m
  then some ⟨y, m, d⟩ else none

/-- Numeric value of a digit run (`int(...)` on the captured group). -/
def natOfDigits (ds : List Char) : Nat :=
  ds.foldl (fun acc c => 10 * acc + (c.toNat - 48)) 0

/-- Exactly `n` leading digits, returning them and the remainder. -/
def takeDigits : Nat → List Char → Option (List Char × List Char)
  | 0, s => some ([], s)
  | _ + 1, [] => none
  | n + 1, c :: rest =>
    if c.isDigit then
      match takeDigits n rest with
      | some (ds, r) => some (c :: ds, r)
      | none => none
    else none

/-- Anchored match of `^(\d{4})-(\d{2})-(\d{2})$`. -/
def matchYmd (s : List Char) : Option (Nat × Nat × Nat) :=
  match takeDigits 4 s with
  | some (y, '-' :: r1) =>
    match takeDigits 2 r1 with
    | some (mo, '-' :: r2) =>
      match takeDigits 2 r2 with
      | some (d, []) => some (natOfDigits y, natOfDigits mo, natOfDigits d)
      | _ => none
    | _ => none
  | _ => none

/-- Anchored match of `^(\d{4})-(\d{2})$`. -/
def matchYm (s : List Char) : Option (Nat × Nat) :=
  match takeDigits 4 s with
  | some (y, '-' :: r1) =>
    match takeDigits 2 r1 with
    | some (mo, []) => some (natOfDigits y, natOfDigits mo)
    | _ => none
  | _ => none

/-- Anchored match of `^(\d{4})$`. -/
def matchY (s : List Char) : Option Nat :=
  match takeDigits 4 s with
  | some (y, []) => some (natOfDigits y)
  | _ => none

/-- Month-name table from `_parse_date` (English and Italian names). -/
def monthNames : List (List Char × Nat) :=
  [(chars "jan", 1), (chars "january", 1),
   (chars "feb", 2), (chars "february", 2),
   (chars "mar", 3), (chars "march", 3),
   (chars "apr", 4), (chars "april", 4),
   (chars "may", 5),
   (chars "jun", 6), (chars "june", 6),
   (chars "jul", 7), (chars "july", 7),
   (chars "aug", 8), (chars "august", 8),
   (chars "sep", 9), (chars "sept", 9), (chars "september", 9),
   (chars "oct", 10), (chars "october", 10),
   (chars "nov", 11), (chars "november", 11),
   (chars "dec", 12), (chars "december", 12),
   (chars "gen", 1), (chars "gennaio", 1),
   (chars "febbraio", 2),
   (chars "marzo", 3),
   (chars "aprile", 4),
   (chars "maggio", 5),
   (chars "giugno", 6),
   (chars "luglio", 7),
   (chars "agosto", 8),
   (chars "settembre", 9),
   (chars "ottobre", 10),
   (chars "novembre", 11),
   (chars "dicembre", 12)]

def lookupMonth (m : List Char) : Option Nat :=
  (monthNames.find? (fun p => p.1 = m)).map (fun p => p.2)

/-- Anchored match of `^(\d{1,2})\s+([A-Za-z]{3,})\.?,?\s+(\d{4})$`:
day digits (a 3-digit run cannot shorten, `\s+` would hit a digit), required
whitespace, a maximal letter run of length ≥ 3, optional `.` then optional
`,`, required whitespace, exactly four digits to the end. -/
def matchDayName (s : List Char) : Option (Nat × List Char × Nat) :=
  let dayRun := s.takeWhile Char.isDigit
  if dayRun.length < 1 || 2 < dayRun.length then none
  else
    let s1 := s.dropWhile Char.isDigit
    if (s1.takeWhile isPySpace).isEmpty then none
    else
      let s2 := s1.dropWhile isPySpace
      let mon := s2.takeWhile isAsciiLetter
      if mon.length < 3 then none
      else
        let s3 := s2.dropWhile isAsciiLetter
        let s3 := match s3 with | '.' :: r => r | _ => s3
        let s3 := match s3 with | ',' :: r => r | _ => s3
        if (s3.takeWhile isPySpace).isEmpty then none
        else
          let s4 := s3.dropWhile isPySpace
          let yr := s4.takeWhile Char.isDigit
          if yr.length = 4 && (s4.dropWhile Char.isDigit).isEmpty then
            some (natOfDigits dayRun, mon, natOfDigits yr)
          else none

/-- Anchored match of `^(\d{1,2})[./](\d{1,2})[./](\d{4})$`. -/
def matchDaySlash (s : List Char) : Option (Nat × Nat × Nat) :=
  let dRun := s.takeWhile Char.isDigit
  if dRun.length < 1 || 2 < dRun.length then none
  else
    match s.dropWhile Char.isDigit with
    | sep1 :: r1 =>
      if sep1 = '.' || sep1 = '/' then
        let moRun := r1.takeWhile Char.isDigit
        if moRun.length < 1 || 2 < moRun.length then none
        else
          match r1.dropWhile Char.isDigit with
          | sep2 :: r2 =>
            if sep2 = '.' || sep2 = '/' then
              let yRun := r2.takeWhile Char.isDigit
              if yRun.length = 4 && (r2.dropWhile Char.isDigit).isEmpty then
                some (natOfDigits dRun, natOfDigits moRun, natOfDigits yRun)
              else none
            else none
          | [] => none
      else none
    | [] => none

/-- `_parse_date` from lambda_function.py.  Each regex that matches returns
immediately (a failed `date(...)` construction yields `none` without trying
later patterns); only an unknown textual month name falls through to the
slash pattern, which then cannot match a textual date. -/
def parse_date_ (s : Option (List Char)) : Option PyDate :=
  let txt := pstrip (s.getD [])
  if txt.isEmpty then none
  else
    let txt := prstripChars txt (chars ".,;")
    match matchYmd txt with
    | some (y, mo, d) => mkDate y mo d
    | none =>
      match matchYm txt with
      | some (y, mo) =>
        match monthrange y mo with
        | some e => mkDate y mo e
        | none => none
      | none =>
        match matchY txt with
        | some y => mkDate y 12 31
        | none =>
          let viaName :=
            match matchDayName txt with
            | some (day, mon, year) =>
              match lookupMonth (lowerStr mon) with
              | some mo => some (mkDate year mo day)
              | none => none
            | none => none
          match viaName with
          | some r => r
          | none =>
            match matchDaySlash txt with
            | some (d, mo, y) => mkDate y mo d
            | none => none

/-- Anchored case-insensitive match of `^(\d{4})-Q([1-4])$`. -/
def matchQuarter (s : List Char) : Option (Nat × Nat) :=
  match takeDigits 4 s with
  | some (y, '-' :: q :: n :: []) =>
    if (q = 'Q' || q = 'q') && ('1' ≤ n && n ≤ '4') then
      some (natOfDigits y, n.toNat - 48)
    else none
  | _ => none

/-- `_parse_filter_range`: the inclusive upper bound of the filter period
(the `(None, end)` pair of the source is modelled by its only informative
component).  `none` models both an empty/unrecognized filter and a
`ValueError` during period construction. -/
def parse_filter_range_ (s : List Char) : Option PyDate :=
  let txt := pstrip s
  if txt.isEmpty then none
  else
    match matchY txt with
    | some y => mkDate y 12 31
    | none =>
      match matchQuarter txt with
      | some (y, q) =>
        let monthEnd := q * 3
        match monthrange y monthEnd with
        | some e => mkDate y monthEnd e
        | none => none
      | none =>
        match matchYm txt with
        | some (y, mo) =>
          match monthrange y mo with
          | some e => mkDate y mo e
          | none => none
        | none =>
          match matchYmd txt with
          | some (y, mo, d) => mkDate y mo d
          | none => none

/-- `_matches_prefix(value, prefix)`. -/
def matchesPref (value : Option (List Char)) (pre : List Char) : Bool :=
  let p := pstrip pre
  if p.isEmpty then true
  else
    match value with
    | none => false
    | some v => (lowerStr p).isPrefixOf (lowerStr (pstrip v))

/-- `_date_filter_match(value, filter_value)`. -/
def date_filter_match (value : Option (List Char)) (filter_value : List Char) :
    Bool :=
  match parse_filter_range_ filter_value with
  | none => matchesPref value filter_value
  | some e =>
    match parse_date_ value with
    | none => false
    | some d => ¬ dateLtB e d

/- ===================================================================
   parser_horizon.py \u2014 identifier matchers
   =================================================================== -/

/-- Boundary after a match: end of input or a non-word character (`\b` when
the match ends in a word character). -/
def bAfterW (s : List Char) : Bool :=
  match s with
  | [] => true
  | c :: _ => ¬ isWordChar c

/-- Greedy collection of the `(?:-[A-Z0-9]+)*` segments: as long as a `-`
followed by a nonempty `[A-Z0-9]+` run follows, consume it. -/
def collectSegsGo : Nat → List Char → List (List Char) × List Char
  | 0, s => ([], s)
  | fuel + 1, s =>
    match s with
    | '-' :: r =>
      let seg := r.takeWhile isUpperDigit
      if seg.isEmpty then ([], s)
      else
        let (segs, rem) := collectSegsGo fuel (r.drop seg.length)
        (seg :: segs, rem)
    | _ => ([], s)

def collectSegs (s : List Char) : List (List Char) × List Char :=
  collectSegsGo s.length s

/-- Attempt `RE_TOPIC_ID` at the current position
(`\bHORIZON-[A-Z0-9]+-\d{4}-\d{2}-[A-Z0-9]+(?:-[A-Z0-9]+)*(?:-two-stage)?\b`;
the `\b` before `H` is the caller's responsibility).  Backtracking analysis:
the `[A-Z0-9]+` runs are forced maximal (shortening leaves an `[A-Z0-9]`
character where `-`/`\b` is required); `-two-stage` can never be eaten by a
`[A-Z0-9]+` segment (lowercase); when the final `\b` fails after the last
greedy segment it also fails for every shortening of that segment, so the
regex drops exactly one whole segment, after which the boundary at the
preceding `-` always holds. -/
def matchTopicIdAt (s : List Char) : Option (List Char) :=
  if ¬ (chars "HORIZON-").isPrefixOf s then none
  else
    let s1 := s.drop 8
    let seg1 := s1.takeWhile isUpperDigit
    if seg1.isEmpty then none
    else
      match s1.drop seg1.length with
      | '-' :: r2 =>
        match takeDigits 4 r2 with
        | some (y4, '-' :: r3) =>
          match takeDigits 2 r3 with
          | some (d2, '-' :: r4) =>
            let segA := r4.takeWhile isUpperDigit
            if segA.isEmpty then none
            else
              let r5 := r4.drop segA.length
              let (optSegs, rem) := collectSegs r5
              let core := chars "HORIZON-" ++ seg1 ++ '-' :: y4 ++ '-' :: d2 ++
                '-' :: segA ++ (optSegs.map (fun seg => '-' :: seg)).flatten
              if (chars "-two-stage").isPrefixOf rem ∧ bAfterW (rem.drop 10)
              then some (core ++ chars "-two-stage")
              else if bAfterW rem then some core
              else
                match optSegs.getLast? with
                | some _ =>
                  some (chars "HORIZON-" ++ seg1 ++ '-' :: y4 ++ '-' :: d2 ++
                    '-' :: segA ++
                    ((optSegs.dropLast).map (fun seg => '-' :: seg)).flatten)
                | none => none
          | _ => none
        | _ => none
      | _ => none

/-- `RE_TOPIC_ID.search`: leftmost match, scanning every position whose
preceding character is not a word character. -/
def searchTopicIdGo : Nat → Option Char → List Char → Option (List Char)
  | 0, _, _ => none
  | _ + 1, _, [] => none
  | fuel + 1, prev, c :: rest =>
    let bOk := match prev with | none => true | some p => ¬ isWordChar p
    if bOk then
      match matchTopicIdAt (c :: rest) with
      | some tid => some tid
      | none => searchTopicIdGo fuel (some c) rest
    else searchTopicIdGo fuel (some c) rest

def searchTopicId (s : List Char) : Option (List Char) :=
  searchTopicIdGo s.length none s

/-- Attempt `RE_CALL_ID` at the current position
(`\bHORIZON-[A-Z0-9]+-\d{4}-\d{2}(?:-two-stage)?\b`). -/
def matchCallIdAt (s : List Char) : Option (List Char) :=
  if ¬ (chars "HORIZON-").isPrefixOf s then none
  else
    let s1 := s.drop 8
    let seg1 := s1.takeWhile isUpperDigit
    if seg1.isEmpty then none
    else
      match s1.drop seg1.length with
      | '-' :: r2 =>
        match takeDigits 4 r2 with
        | some (y4, '-' :: r3) =>
          match takeDigits 2 r3 with
          | some (d2, rem) =>
            let core := chars "HORIZON-" ++ seg1 ++ '-' :: y4 ++ '-' :: d2
            if (chars "-two-stage").isPrefixOf rem ∧ bAfterW (rem.drop 10)
            then some (core ++ chars "-two-stage")
            else if bAfterW rem then some core
            else none
          | none => none
        | _ => none
      | _ => none

def searchCallIdGo : Nat → Option Char → List Char → Option (List Char)
  | 0, _, _ => none
  | _ + 1, _, [] => none
  | fuel + 1, prev, c :: rest =>
    let bOk := match prev with | none => true | some p => ¬ isWordChar p
    if bOk then
      match matchCallIdAt (c :: rest) with
      | some cid => some cid
      | none => searchCallIdGo fuel (some c) rest
    else searchCallIdGo fuel (some c) rest

def searchCallId (s : List Char) : Option (List Char) :=
  searchCallIdGo s.length none s

/-- `RE_SPLIT_ID_LINE` (`^HORIZON-[A-Z0-9]+(?:-[A-Z0-9]+)*-$`, a full-line
match since the pattern is anchored on both sides). -/
def splitIdTailOk : Nat → List Char → Bool
  | 0, _ => false
  | fuel + 1, s =>
    let seg := s.takeWhile isUpperDigit
    if seg.isEmpty then false
    else
      match s.drop seg.length with
      | '-' :: rest => if rest.isEmpty then true else splitIdTailOk fuel rest
      | _ => false

def isSplitIdLine (s : List Char) : Bool :=
  (chars "HORIZON-").isPrefixOf s && splitIdTailOk s.length (s.drop 8)

/-- `_derive_call_id_from_topic`
(`re.match(r"^(HORIZON-[A-Z0-9]+-\d{4}-\d{2})-", topic_id)`). -/
def deriveCallIdFromTopic (tid : List Char) : Option (List Char) :=
  if ¬ (chars "HORIZON-").isPrefixOf tid then none
  else
    let s1 := tid.drop 8
    let seg1 := s1.takeWhile isUpperDigit
    if seg1.isEmpty then none
    else
      match s1.drop seg1.length with
      | '-' :: r2 =>
        match takeDigits 4 r2 with
        | some (y4, '-' :: r3) =>
          match takeDigits 2 r3 with
          | some (d2, '-' :: _) =>
            some (chars "HORIZON-" ++ seg1 ++ '-' :: y4 ++ '-' :: d2)
          | _ => none
        | _ => none
      | _ => none

/-- `RE_PAGE_MARKER` (`^<<<PAGE\s+(\d+)>>>$`). -/
def pageMarker (s : List Char) : Option Nat :=
  if ¬ (chars "<<<PAGE").isPrefixOf s then none
  else
    let t := s.drop 7
    let ws := t.takeWhile isPySpace
    if ws.isEmpty then none
    else
      let t2 := t.dropWhile isPySpace
      let ds := t2.takeWhile Char.isDigit
      if ds.isEmpty then none
      else if t2.drop ds.length = chars ">>>" then some (natOfDigits ds)
      else none

/-- Suffix of `hay` after the first occurrence of `needle`. -/
def findAfterLit : List Char → List Char → Option (List Char)
  | [], needle => if needle.isEmpty then some [] else none
  | c :: rest, needle =>
    if needle.isPrefixOf (c :: rest) then some ((c :: rest).drop needle.length)
    else findAfterLit rest needle

/-- `RE_OPENING.search` (`Opening:\s*(.+)`): the capture is the text after
the literal and the following whitespace; the match requires that text to be
nonempty (`.+`; lines contain no `\n`, so `.` excludes nothing here). -/
def openingTail (s : List Char) : Option (List Char) :=
  match findAfterLit s (chars "Opening:") with
  | some t =>
    let g := t.dropWhile isPySpace
    if g.isEmpty then none else some g
  | none => none

/-- `RE_DEADLINE.search` (`Deadline\(s\):\s*(.+)`). -/
def deadlineTail (s : List Char) : Option (List Char) :=
  match findAfterLit s (chars "Deadline(s):") with
  | some t =>
    let g := t.dropWhile isPySpace
    if g.isEmpty then none else some g
  | none => none

/- ===================================================================
   parser_horizon.py \u2014 line normalisation and the overview-block parser
   =================================================================== -/

/-- The first rewrite of `_norm`:
`re.sub(r"([A-Za-z])\u00AD([A-Za-z])", r"\1 \2", s)` with non-overlapping
left-to-right scanning (after a match the scan resumes after the second
letter). -/
def softHyphenLetterSubGo : Nat → List Char → List Char
  | 0, s => s
  | _ + 1, [] => []
  | fuel + 1, c :: rest =>
    if isAsciiLetter c then
      match rest with
      | '\u00AD' :: d :: r =>
        if isAsciiLetter d then c :: ' ' :: d :: softHyphenLetterSubGo fuel r
        else c :: softHyphenLetterSubGo fuel rest
      | _ => c :: softHyphenLetterSubGo fuel rest
    else c :: softHyphenLetterSubGo fuel rest

/-- `_norm` from parser_horizon.py: strip, protect letter-soft-hyphen-letter
joins, drop soft hyphens, normalize PDF hyphen/dash variants, normalize the
curly apostrophe, collapse whitespace. -/
def hNorm (s : List Char) : List Char :=
  let s := pstrip s
  let s := softHyphenLetterSubGo s.length s
  let s := s.filter (fun c => c ≠ '\u00AD')
  let s := s.map (fun c => if c = '\uFFFE' then '-' else c)
  let s := s.map (fun c =>
    if c = '\u2010' || c = '\u2011' || c = '\u2013' || c = '\u2014' ||
       c = '\u2212' then '-' else c)
  let s := s.map (fun c => if c = '\u2019' then '\'' else c)
  normWs s

/-- `ACTION_TYPES`. -/
def ACTION_TYPES : List (List Char) :=
  [chars "RIA", chars "IA", chars "CSA", chars "PCP", chars "PPI",
   chars "COFUND", chars "ERC", chars "MSCA", chars "EIC-PATHFINDER",
   chars "EIC-TRANSITION", chars "EIC-ACCELERATOR"]

/-- `ACTION_TYPES_PATTERN`: the alternation sorted longest-first.  (No action
name is a prefix of another, so the order between equal-length names \u2014
nondeterministic in the source, which sorts a `set` \u2014 cannot change which
alternative matches.) -/
def actionsByLenDesc : List (List Char) :=
  [chars "EIC-ACCELERATOR", chars "EIC-PATHFINDER", chars "EIC-TRANSITION",
   chars "COFUND", chars "MSCA", chars "RIA", chars "CSA", chars "PCP",
   chars "PPI", chars "ERC", chars "IA"]

/-- `re.match(rf"^{ACTION_TYPES_PATTERN}\s+(.*)$", joined)`: an action-type
literal at the start, at least one whitespace character, then the rest. -/
def actionSplit (joined : List Char) : Option (List Char × List Char) :=
  actionsByLenDesc.findSome? (fun act =>
    if act.isPrefixOf joined then
      let r := joined.drop act.length
      if (r.takeWhile isPySpace).isEmpty then none
      else some (act, r.dropWhile isPySpace)
    else none)

/-- `re.sub(r"\)(\d{1,2})\b", ")", s)`: a `)` followed by one or two digits
ending at a word boundary loses the digits (a 3-digit run cannot match:
`\d{1,2}` always leaves a digit where `\b` is required). -/
def footnoteParenSubGo : Nat → List Char → List Char
  | 0, s => s
  | _ + 1, [] => []
  | fuel + 1, c :: rest =>
    if c = ')' then
      let run := rest.takeWhile Char.isDigit
      if 1 ≤ run.length && run.length ≤ 2 && bAfterW (rest.drop run.length)
      then ')' :: footnoteParenSubGo fuel (rest.drop run.length)
      else ')' :: footnoteParenSubGo fuel rest
    else c :: footnoteParenSubGo fuel rest

/-- `re.sub(r"\b(EUR|million)\s+(\d{1,2})\b", r"\1", s, flags=IGNORECASE)`:
the literal keeps its original spelling, the whitespace and the 1\u20132 digit
footnote are dropped. -/
def eurMillionTry (lit : List Char) (s : List Char) :
    Option (List Char × List Char) :=
  if isPrefixCI lit s then
    let orig := s.take lit.length
    let r1 := s.drop lit.length
    if (r1.takeWhile isPySpace).isEmpty then none
    else
      let r2 := r1.dropWhile isPySpace
      let run := r2.takeWhile Char.isDigit
      if 1 ≤ run.length && run.length ≤ 2 && bAfterW (r2.drop run.length)
      then some (orig, r2.drop run.length)
      else none
  else none

def eurMillionSubGo : Nat → Option Char → List Char → List Char
  | 0, _, s => s
  | _ + 1, _, [] => []
  | fuel + 1, prev, c :: rest =>
    let bOk := match prev with | none => true | some p => ¬ isWordChar p
    if bOk then
      match eurMillionTry (chars "eur") (c :: rest) with
      | some (orig, after) =>
        orig ++ eurMillionSubGo fuel (some '0') after
      | none =>
        match eurMillionTry (chars "million") (c :: rest) with
        | some (orig, after) =>
          orig ++ eurMillionSubGo fuel (some '0') after
        | none => c :: eurMillionSubGo fuel (some c) rest
    else c :: eurMillionSubGo fuel (some c) rest

/-- `_clean_overview_joined`. -/
def clean_overview_joined (s : List Char) : List Char :=
  let s := hNorm s
  let s := footnoteParenSubGo s.length s
  let s := eurMillionSubGo s.length none s
  hNorm s

/-- `_normalize_overview_text`. -/
def normalize_overview_text (s : List Char) : List Char := normWs s

/-- Rational value of a matched decimal string (`float(...)` on the short
decimals the patterns accept); built with `mkRat` so that the value reduces
in the kernel. -/
def ratOfDecStr (s : List Char) : ℚ :=
  let I := s.takeWhile Char.isDigit
  let rest := s.drop I.length
  match rest with
  | '.' :: F =>
    mkRat (natOfDigits I * 10 ^ F.length + natOfDigits F) (10 ^ F.length)
  | _ => mkRat (natOfDigits I) 1

/-- Match of `\d+(?:\.\d{1,3})?\b` at a position starting with a digit
(`RE_DECIMAL_NUMBER` followed by a closing boundary).  Greedy semantics: the
integer run is maximal; the fraction is accepted only when its full run has
1\u20133 digits and ends at a word boundary (a shorter slice of the run always
leaves a digit at the boundary), otherwise the match falls back to the
integer part, whose boundary at `.` always holds; with no `.` the integer
run itself must end at a boundary. -/
def decimalAt (s : List Char) : Option (List Char × List Char) :=
  let I := s.takeWhile Char.isDigit
  if I.isEmpty then none
  else
    let rest := s.drop I.length
    match rest with
    | '.' :: r =>
      let F := r.takeWhile Char.isDigit
      if 1 ≤ F.length && F.length ≤ 3 && bAfterW (r.drop F.length) then
        some (I ++ '.' :: F, r.drop F.length)
      else some (I, rest)
    | _ => if bAfterW rest then some (I, rest) else none

/-- `re.search(rf"\b({RE_DECIMAL_NUMBER})\b", rest)`: leftmost decimal with
boundaries on both sides. -/
def searchDecimalGo : Nat → Option Char → List Char → Option (List Char)
  | 0, _, _ => none
  | _ + 1, _, [] => none
  | fuel + 1, prev, c :: rest =>
    let bOk := match prev with | none => true | some p => ¬ isWordChar p
    if bOk && c.isDigit then
      match decimalAt (c :: rest) with
      | some (d, _) => some d
      | none => searchDecimalGo fuel (some c) rest
    else searchDecimalGo fuel (some c) rest

def searchDecimal (s : List Char) : Option (List Char) :=
  searchDecimalGo s.length none s

/-- `re.findall(rf"\b({RE_DECIMAL_NUMBER})\b", rest)`: all non-overlapping
matches, scanning left to right. -/
def findAllDecimalsGo : Nat → Option Char → List Char → List (List Char)
  | 0, _, _ => []
  | _ + 1, _, [] => []
  | fuel + 1, prev, c :: rest =>
    let bOk := match prev with | none => true | some p => ¬ isWordChar p
    if bOk && c.isDigit then
      match decimalAt (c :: rest) with
      | some (d, after) => d :: findAllDecimalsGo fuel (some '0') after
      | none => findAllDecimalsGo fuel (some c) rest
    else findAllDecimalsGo fuel (some c) rest

def findAllDecimals (s : List Char) : List (List Char) :=
  findAllDecimalsGo s.length none s

/-- All ways `\d+(?:\.\d{1,3})?` (no trailing boundary) can match at a
position starting with a digit, in the regex's preference order: longest
fraction first, then no fraction.  Used where the pattern continues with
`\s+`, which forces the backtracking the range pattern needs. -/
def decimalOptions (s : List Char) : List (List Char × List Char) :=
  let I := s.takeWhile Char.isDigit
  if I.isEmpty then []
  else
    let rest := s.drop I.length
    match rest with
    | '.' :: r =>
      let F := r.takeWhile Char.isDigit
      let ks := ((List.range (min 3 F.length)).reverse).map (fun k => k + 1)
      (ks.map (fun k => (I ++ '.' :: F.take k, r.drop k))) ++ [(I, rest)]
    | _ => [(I, rest)]

/-- Continuation of the range pattern after the first decimal:
`\s+to\s+(D)\s+(\d{1,3})\b` (the trailing count is a full 1\u20133 digit run
ending at a word boundary). -/
def rangeTail (r1 : List Char) : Option (List Char × List Char) :=
  if (r1.takeWhile isPySpace).isEmpty then none
  else
    let r2 := r1.dropWhile isPySpace
    if ¬ (chars "to").isPrefixOf r2 then none
    else
      let r3 := r2.drop 2
      if (r3.takeWhile isPySpace).isEmpty then none
      else
        let r4 := r3.dropWhile isPySpace
        (decimalOptions r4).findSome? (fun p =>
          let d2 := p.1
          let r5 := p.2
          if (r5.takeWhile isPySpace).isEmpty then none
          else
            let r6 := r5.dropWhile isPySpace
            let g := r6.takeWhile Char.isDigit
            if 1 ≤ g.length && g.length ≤ 3 && bAfterW (r6.drop g.length)
            then some (d2, g) else none)

/-- `re.search(rf"\b(D)\s+to\s+(D)\s+(\d{{1,3}})\b", rest)`: leftmost match,
trying the first decimal's options in preference order at each start. -/
def searchRangeGo : Nat → Option Char → List Char →
    Option (List Char × List Char × List Char)
  | 0, _, _ => none
  | _ + 1, _, [] => none
  | fuel + 1, prev, c :: rest =>
    let bOk := match prev with | none => true | some p => ¬ isWordChar p
    if bOk && c.isDigit then
      match (decimalOptions (c :: rest)).findSome? (fun p =>
        (rangeTail p.2).map (fun q => (p.1, q.1, q.2))) with
      | some r => some r
      | none => searchRangeGo fuel (some c) rest
    else searchRangeGo fuel (some c) rest

def searchRange (s : List Char) : Option (List Char × List Char × List Char) :=
  searchRangeGo s.length none s

/-- `re.search(rf"\bAround\s+(?P<amount>D)\b", rest, IGNORECASE)`. -/
def searchAroundAmountGo : Nat → Option Char → List Char → Option (List Char)
  | 0, _, _ => none
  | _ + 1, _, [] => none
  | fuel + 1, prev, c :: rest =>
    let bOk := match prev with | none => true | some p => ¬ isWordChar p
    if bOk && isPrefixCI (chars "around") (c :: rest) then
      let r1 := (c :: rest).drop 6
      if (r1.takeWhile isPySpace).isEmpty then
        searchAroundAmountGo fuel (some c) rest
      else
        match decimalAt (r1.dropWhile isPySpace) with
        | some (d, _) => some d
        | none => searchAroundAmountGo fuel (some c) rest
    else searchAroundAmountGo fuel (some c) rest

def searchAroundAmount (s : List Char) : Option (List Char) :=
  searchAroundAmountGo s.length none s

/-- `re.search(r"\bAround\s+(\d{1,3})\b", rest, IGNORECASE)`. -/
def searchAroundIntGo : Nat → Option Char → List Char → Option Nat
  | 0, _, _ => none
  | _ + 1, _, [] => none
  | fuel + 1, prev, c :: rest =>
    let bOk := match prev with | none => true | some p => ¬ isWordChar p
    if bOk && isPrefixCI (chars "around") (c :: rest) then
      let r1 := (c :: rest).drop 6
      if (r1.takeWhile isPySpace).isEmpty then
        searchAroundIntGo fuel (some c) rest
      else
        let r2 := r1.dropWhile isPySpace
        let run := r2.takeWhile Char.isDigit
        if 1 ≤ run.length && run.length ≤ 3 && bAfterW (r2.drop run.length)
        then some (natOfDigits run)
        else searchAroundIntGo fuel (some c) rest
    else searchAroundIntGo fuel (some c) rest

def searchAroundInt (s : List Char) : Option Nat :=
  searchAroundIntGo s.length none s

/-- `re.search(r"(?<!\.)\b(?P<projects>\d{1,3})\s*$", rest)`: leftmost
position not preceded by a word character or a dot whose full digit run has
1\u20133 digits and is followed only by whitespace up to the end. -/
def searchProjectsEndGo : Nat → Option Char → List Char → Option Nat
  | 0, _, _ => none
  | _ + 1, _, [] => none
  | fuel + 1, prev, c :: rest =>
    let ok := match prev with
      | none => true
      | some p => ¬ isWordChar p && p ≠ '.'
    if ok && c.isDigit then
      let run := (c :: rest).takeWhile Char.isDigit
      if run.length ≤ 3 && ((c :: rest).drop run.length).all isPySpace then
        some (natOfDigits run)
      else searchProjectsEndGo fuel (some c) rest
    else searchProjectsEndGo fuel (some c) rest

def searchProjectsEnd (s : List Char) : Option Nat :=
  searchProjectsEndGo s.length none s

/-- `" ".join(buf)`. -/
def joinSpace (xs : List (List Char)) : List Char :=
  ((xs.intersperse (chars " "))).flatten

/-- Result record of `_parse_overview_block` (the dict the source builds). -/
structure Overview where
  action_type : List Char
  budget_eur_m : ℚ
  budget_per_project_min_eur_m : ℚ
  budget_per_project_max_eur_m : ℚ
  projects : Nat
deriving DecidableEq, Repr

/-- `_parse_overview_block(lines, start_i)`: up to 12 iterations, buffering
normalized lines, stopping on topic/cluster/call markers, then trying in
order the `X to Y n` range, the clean `Around amount n`, and the messy
`Around n … amount` shapes on the cleaned joined buffer.  Returns the parsed
overview and the next index, or `none` (the caller keeps its own index on
failure, as the source returns `start_i` untouched). -/
def parseOverviewGo : Nat → List (List Char) → Nat → List (List Char) →
    Option (Overview × Nat)
  | 0, _, _, _ => none
  | fuel + 1, lines, i, buf =>
    if h : i < lines.length then
      let ln := hNorm (lines.get ⟨i, h⟩)
      if ln.isEmpty then parseOverviewGo fuel lines (i + 1) buf
      else if (searchTopicId ln).isSome || (chars "Call - ").isPrefixOf ln
      then none
      else if (searchCallId ln).isSome && ¬ (searchTopicId ln).isSome
      then none
      else
        let buf := buf ++ [ln]
        let joined := clean_overview_joined (joinSpace buf)
        match actionSplit joined with
        | none => parseOverviewGo fuel lines (i + 1) buf
        | some (action, rest0) =>
          let rest := normalize_overview_text rest0
          match searchDecimal rest with
          | none => parseOverviewGo fuel lines (i + 1) buf
          | some totalStr =>
            let total := ratOfDecStr totalStr
            match searchRange rest with
            | some (d1, d2, g) =>
              some ({ action_type := action, budget_eur_m := total,
                      budget_per_project_min_eur_m := ratOfDecStr d1,
                      budget_per_project_max_eur_m := ratOfDecStr d2,
                      projects := natOfDigits g }, i + 1)
            | none =>
              match searchAroundAmount rest with
              | some amountStr =>
                match searchProjectsEnd rest with
                | none => parseOverviewGo fuel lines (i + 1) buf
                | some projs =>
                  some ({ action_type := action, budget_eur_m := total,
                          budget_per_project_min_eur_m := ratOfDecStr amountStr,
                          budget_per_project_max_eur_m := ratOfDecStr amountStr,
                          projects := projs }, i + 1)
              | none =>
                match searchAroundInt rest with
                | some projs =>
                  match (findAllDecimals rest).reverse.findSome? (fun f =>
                    let v := ratOfDecStr f
                    if v ≠ total then some v else none) with
                  | some p =>
                    some ({ action_type := action, budget_eur_m := total,
                            budget_per_project_min_eur_m := p,
                            budget_per_project_max_eur_m := p,
                            projects := projs }, i + 1)
                  | none => parseOverviewGo fuel lines (i + 1) buf
                | none => parseOverviewGo fuel lines (i + 1) buf
    else none

/-- `_parse_overview_block` (the `for _ in range(12)` loop). -/
def parse_overview_block (lines : List (List Char)) (start_i : Nat) :
    Option (Overview × Nat) :=
  parseOverviewGo 12 lines start_i []

/- ===================================================================
   parser_horizon.py — title noise/stop matchers
   =================================================================== -/

/-- Match a case-insensitive word sequence at the start of `s`, each pair of
words separated by `\s+`; returns the remainder after the last word. -/
def matchWordsCI : List (List Char) → List Char → Option (List Char)
  | [], s => some s
  | [w], s => if isPrefixCI w s then some (s.drop w.length) else none
  | w :: w2 :: ws, s =>
    if isPrefixCI w s then
      let r := s.drop w.length
      if (r.takeWhile isPySpace).isEmpty then none
      else matchWordsCI (w2 :: ws) (r.dropWhile isPySpace)
    else none

/-- A nonempty digit run followed by the given continuation check; helper
for the `Part … Page … of …` marker. -/
def digitRunThen (s : List Char) (k : List Char → Bool) : Bool :=
  let run := s.takeWhile Char.isDigit
  ¬ run.isEmpty && k (s.drop run.length)

/-- `RE_TITLE_PAGE_MARKER` attempted at one position
(`\bPart\s+\d+\s*-\s*Page\s+\d+\s+of\s+\d+\b`, IGNORECASE).  The digit runs
are forced maximal (a shortened run leaves a digit where `\s`/`-`/`\b` is
required). -/
def matchPartPageAt (s : List Char) : Bool :=
  if isPrefixCI (chars "part") s then
    let r := s.drop 4
    if (r.takeWhile isPySpace).isEmpty then false
    else
      digitRunThen (r.dropWhile isPySpace) (fun r2 =>
        match r2.dropWhile isPySpace with
        | '-' :: r3 =>
          let r4 := r3.dropWhile isPySpace
          if isPrefixCI (chars "page") r4 then
            let r5 := r4.drop 4
            if (r5.takeWhile isPySpace).isEmpty then false
            else
              digitRunThen (r5.dropWhile isPySpace) (fun r6 =>
                if (r6.takeWhile isPySpace).isEmpty then false
                else
                  let r7 := r6.dropWhile isPySpace
                  if isPrefixCI (chars "of") r7 then
                    let r8 := r7.drop 2
                    if (r8.takeWhile isPySpace).isEmpty then false
                    else
                      digitRunThen (r8.dropWhile isPySpace) bAfterW
                  else false)
          else false
        | _ => false)
  else false

def searchPartPageGo : Nat → Option Char → List Char → Bool
  | 0, _, _ => false
  | _ + 1, _, [] => false
  | fuel + 1, prev, c :: rest =>
    let bOk := match prev with | none => true | some p => ¬ isWordChar p
    if bOk && matchPartPageAt (c :: rest) then true
    else searchPartPageGo fuel (some c) rest

def searchPartPage (s : List Char) : Bool := searchPartPageGo s.length none s

/-- `RE_TITLE_WORK_PROGRAMME` attempted at one position
(`\bHorizon Europe\s*-\s*Work Programme\b.*`, IGNORECASE; the literal spaces
match exactly one space). -/
def matchWorkProgAt (s : List Char) : Bool :=
  if isPrefixCI (chars "horizon europe") s then
    match (s.drop 14).dropWhile isPySpace with
    | '-' :: r3 =>
      let r4 := r3.dropWhile isPySpace
      isPrefixCI (chars "work programme") r4 && bAfterW (r4.drop 14)
    | _ => false
  else false

def searchWorkProgGo : Nat → Option Char → List Char → Bool
  | 0, _, _ => false
  | _ + 1, _, [] => false
  | fuel + 1, prev, c :: rest =>
    let bOk := match prev with | none => true | some p => ¬ isWordChar p
    if bOk && matchWorkProgAt (c :: rest) then true
    else searchWorkProgGo fuel (some c) rest

def searchWorkProg (s : List Char) : Bool := searchWorkProgGo s.length none s

/-- `RE_TITLE_PROGRAMME_TITLE` (`\bCivil Security for Society\b`,
IGNORECASE, search). -/
def searchCivilSecGo : Nat → Option Char → List Char → Bool
  | 0, _, _ => false
  | _ + 1, _, [] => false
  | fuel + 1, prev, c :: rest =>
    let bOk := match prev with | none => true | some p => ¬ isWordChar p
    if bOk then
      match matchWordsCI
        [chars "civil", chars "security", chars "for", chars "society"]
        (c :: rest) with
      | some rem => if bAfterW rem then true
        else searchCivilSecGo fuel (some c) rest
      | none => searchCivilSecGo fuel (some c) rest
    else searchCivilSecGo fuel (some c) rest

def searchCivilSec (s : List Char) : Bool := searchCivilSecGo s.length none s

/-- `_is_title_noise_line`. -/
def isTitleNoiseLine (ln : List Char) : Bool :=
  (pageMarker ln).isSome || searchPartPage ln || searchWorkProg ln ||
  searchCivilSec ln

/-- The word-phrase alternatives of `RE_TITLE_SECTION_HEADER` other than
`Call:`.  Each phrase ends in a word character, so `\b` (and the optional
colon of `Expected Outcome:?` / `Scope:?`, whose presence never changes the
boolean) reduces to a non-word character or end after the phrase. -/
def titleSectionPhrases : List (List (List Char)) :=
  [[chars "specific", chars "conditions"],
   [chars "expected", chars "outcome"],
   [chars "scope"],
   [chars "indicative", chars "budget"],
   [chars "type", chars "of", chars "action"],
   [chars "eligibility", chars "conditions"],
   [chars "technology", chars "readiness", chars "level"],
   [chars "legal", chars "and", chars "financial", chars "set-up"],
   [chars "security", chars "sensitive", chars "topics"]]

/-- `RE_TITLE_SECTION_HEADER.match` as used by `_stop_title`: one of the
section phrases at the start of the line.  For the `Call:` alternative `\b`
after the colon demands a word character next (a bare `Call:` line does not
match). -/
def stopTitle (ln : List Char) : Bool :=
  if ln.isEmpty then false
  else
    (isPrefixCI (chars "call:") ln &&
      (match ln.drop 5 with | c :: _ => isWordChar c | [] => false)) ||
    titleSectionPhrases.any (fun ph =>
      match matchWordsCI ph ln with
      | some rem => bAfterW rem
      | none => false)

/-- The alternatives of `RE_SKIP_DESC`
(`^(Expected\s+Outcome|Scope|Specific\s+conditions|Type\s+of\s+action|Topic\s+description|Conditions|Expected\s+impact|Outcomes?)\b`,
IGNORECASE); `Outcomes?` contributes both spellings. -/
def skipDescPhrases : List (List (List Char)) :=
  [[chars "expected", chars "outcome"],
   [chars "scope"],
   [chars "specific", chars "conditions"],
   [chars "type", chars "of", chars "action"],
   [chars "topic", chars "description"],
   [chars "conditions"],
   [chars "expected", chars "impact"],
   [chars "outcomes"],
   [chars "outcome"]]

def skipDesc (ln : List Char) : Bool :=
  skipDescPhrases.any (fun ph =>
    match matchWordsCI ph ln with
    | some rem => bAfterW rem
    | none => false)

/-- First whitespace-token of the line is one of `ACTION_TYPES`
(`tokens = nxt.split(); tokens and tokens[0] in ACTION_TYPES`). -/
def firstTokenIsAction (ln : List Char) : Bool :=
  match psplit ln with
  | t :: _ => ACTION_TYPES.contains t
  | [] => false

/-- `re.search(r"(.*)\b(\d{1,4}(?:\.\d{1,2})?)\s*$", tail)` in the trailing
lines scavenge: the greedy `(.*)` selects the rightmost position where a
word-boundary-preceded digit run (≤ 4 digits, optional fraction of ≤ 2
digits) is followed by whitespace only.  Only the numeric value is used by
the embedded fields (the captured left part feeds the dropped title
buffer). -/
def floatEndAt (s : List Char) (p : Nat) : Option ℚ :=
  let prevOk := p = 0 ||
    (match s.get? (p - 1) with | some c => ¬ isWordChar c | none => false)
  if ¬ prevOk then none
  else
    let rest := s.drop p
    let I := rest.takeWhile Char.isDigit
    if I.isEmpty || 4 < I.length then none
    else
      match rest.drop I.length with
      | '.' :: r =>
        let F := r.takeWhile Char.isDigit
        if 1 ≤ F.length && F.length ≤ 2 && (r.drop F.length).all isPySpace
        then some (ratOfDecStr (I ++ '.' :: F))
        else none
      | other => if other.all isPySpace then some (ratOfDecStr I) else none

def floatEndMatch (s : List Char) : Option ℚ :=
  ((List.range s.length).reverse).findSome? (fun p => floatEndAt s p)

/- ===================================================================
   parser_horizon.py — split-identifier merging
   =================================================================== -/

/-- `_try_join(a, b)`: the six normalized join candidates, first one
containing a topic id wins. -/
def tryJoin (a b : List Char) : Option (List Char) :=
  let dashFix := fun c =>
    hNorm (replaceAll (replaceAll (replaceAll c (chars " - ") (chars "-"))
      (chars "- ") (chars "-")) (chars " -") (chars "-"))
  let c1 := hNorm (a ++ b)
  let c2 := hNorm (a ++ ' ' :: b)
  let c3 := hNorm (prstrip a ++ plstrip b)
  let cands := [c1, c2, c3, dashFix c1, dashFix c2, dashFix c3]
  cands.find? (fun c => (searchTopicId c).isSome)

/-- `_merge_split_identifier_lines`. -/
def mergeLinesGo : Nat → List (List Char) → List (List Char)
  | 0, ls => ls
  | _ + 1, [] => []
  | _ + 1, [a] => [a]
  | fuel + 1, a :: b :: rest =>
    if isSplitIdLine a then
      hNorm (a ++ plstrip b) :: mergeLinesGo fuel rest
    else if containsSub a (chars "HORIZON-") then
      match tryJoin a b with
      | some j => j :: mergeLinesGo fuel rest
      | none => a :: mergeLinesGo fuel (b :: rest)
    else a :: mergeLinesGo fuel (b :: rest)

def mergeLines (ls : List (List Char)) : List (List Char) :=
  mergeLinesGo ls.length ls

/- ===================================================================
   parser_horizon.py — the scanner and parse_calls
   =================================================================== -/

/-- The Row fields of the dictionaries `parse_calls` emits that the verified
claims range over, plus the two fields the post-processor reads or writes
(`budget_per_project_m` is created there; `funding_percentage` never exists
in a Horizon row dict, so reading it always yields `None`, modelled as a
field that is never assigned).  The purely descriptive outputs — cluster,
stage, call_round, page, titles, descriptions, trl, topic_body — are built
from buffers no branch of the scanner reads back; no claim mentions them and
they are omitted from the projection. -/
structure Row where
  call_id : Option (List Char)
  topic_id : List Char
  action_type : Option (List Char)
  opening_date : Option (List Char)
  deadline_date : Option (List Char)
  budget_eur_m : Option ℚ
  projects : Option Nat
  budget_per_project_min_eur_m : Option ℚ
  budget_per_project_max_eur_m : Option ℚ
  budget_per_project_m : Option ℚ
  funding_percentage : Option (List Char)
deriving DecidableEq, Repr

/-- The scanner state: the call-scoped context, the pending topic, and the
flushed rows in flush order.  The source inserts each flushed row into
`best_by_topic` immediately; the dictionary is only read after the loop, so
recording the flushes and folding them below reproduces it exactly. -/
structure ScanSt where
  currentCallId : Option (List Char)
  currentOpening : Option (List Char)
  currentDeadline : Option (List Char)
  pendingTopicId : Option (List Char)
  pendingActionType : Option (List Char)
  pendingBudgetTotal : Option ℚ
  pendingPerMin : Option ℚ
  pendingPerMax : Option ℚ
  pendingProjects : Option Nat
  events : List Row
deriving Repr

def initSt : ScanSt :=
  ⟨none, none, none, none, none, none, none, none, none, []⟩

/-- `flush_topic`: emit the pending topic (if any) as a row, deriving and
persisting the call id from the topic id when no call id is current, then
reset the pending fields. -/
def flushTopic (st : ScanSt) : ScanSt :=
  match st.pendingTopicId with
  | none => st
  | some tid =>
    let callId := match st.currentCallId with
      | some c => some c
      | none => deriveCallIdFromTopic tid
    let row : Row :=
      { call_id := callId, topic_id := tid,
        action_type := st.pendingActionType,
        opening_date := st.currentOpening,
        deadline_date := st.currentDeadline,
        budget_eur_m := st.pendingBudgetTotal,
        projects := st.pendingProjects,
        budget_per_project_min_eur_m := st.pendingPerMin,
        budget_per_project_max_eur_m := st.pendingPerMax,
        budget_per_project_m := none,
        funding_percentage := none }
    { st with
      currentCallId := callId
      events := st.events ++ [row]
      pendingTopicId := none
      pendingActionType := none
      pendingBudgetTotal := none
      pendingPerMin := none
      pendingPerMax := none
      pendingProjects := none }

/-- The bounded title lookahead (`title_lines_collected < 6`); it only moves
the index (the collected fragments feed the dropped title buffer). -/
def titleLoopGo : Nat → List (List Char) → Nat → Nat → Nat
  | 0, _, i, _ => i
  | fuel + 1, lines, i, collected =>
    if h : i < lines.length then
      if collected < 6 then
        let nxt := hNorm (lines.get ⟨i, h⟩)
        if nxt.isEmpty then titleLoopGo fuel lines (i + 1) collected
        else if isTitleNoiseLine nxt then titleLoopGo fuel lines (i + 1) collected
        else if (chars "Call - ").isPrefixOf nxt || (searchTopicId nxt).isSome
        then i
        else if (searchCallId nxt).isSome then i
        else if firstTokenIsAction nxt then i
        else if stopTitle nxt then i
        else titleLoopGo fuel lines (i + 1) (collected + 1)
      else i
    else i

/-- The short-description capture after a parsed overview
(`desc_lines < 3`); it only moves the index (the captured lines feed the
dropped description buffer). -/
def descLoopGo : Nat → List (List Char) → Nat → Nat → Nat
  | 0, _, i, _ => i
  | fuel + 1, lines, i, descLines =>
    if h : i < lines.length then
      if descLines < 3 then
        let tail := hNorm (lines.get ⟨i, h⟩)
        if tail.isEmpty then descLoopGo fuel lines (i + 1) descLines
        else if (chars "Destination - ").isPrefixOf tail ||
          (chars "Call - ").isPrefixOf tail || (searchTopicId tail).isSome ||
          firstTokenIsAction tail then i
        else if skipDesc tail then descLoopGo fuel lines (i + 1) descLines
        else descLoopGo fuel lines (i + 1) (descLines + 1)
      else i
    else i

/-- The two-line trailing scavenge after the overview (`for _ in range(2)`):
may fill a missed per-project value when the just-parsed overview left
min/max unset (with a successful overview both are set, so the fill is
inert), and advances the index. -/
def extraLoopGo : Nat → List (List Char) → Nat → ScanSt → Nat × ScanSt
  | 0, _, i, st => (i, st)
  | fuel + 1, lines, i, st =>
    if h : i < lines.length then
      let tail := hNorm (lines.get ⟨i, h⟩)
      if tail.isEmpty || (chars "Destination - ").isPrefixOf tail ||
        (chars "Call - ").isPrefixOf tail || (searchTopicId tail).isSome
      then (i, st)
      else if isTitleNoiseLine tail then extraLoopGo fuel lines (i + 1) st
      else if stopTitle tail then (i, st)
      else
        match floatEndMatch tail with
        | some val =>
          let st :=
            if st.pendingPerMin = none || st.pendingPerMax = none then
              { st with pendingPerMin := some val, pendingPerMax := some val }
            else st
          extraLoopGo fuel lines (i + 1) st
        | none => extraLoopGo fuel lines (i + 1) st
    else (i, st)

/-- The gather loop of the topic branch: advance over title-continuation
lines until a block boundary, a stop header, or a parsed overview block
(which then fills the pending overview fields and runs the description and
scavenge loops before breaking). -/
def gatherLoopGo : Nat → List (List Char) → Nat → ScanSt → Nat × ScanSt
  | 0, _, i, st => (i, st)
  | fuel + 1, lines, i, st =>
    if h : i < lines.length then
      let nxt := hNorm (lines.get ⟨i, h⟩)
      if nxt.isEmpty then gatherLoopGo fuel lines (i + 1) st
      else if (chars "Call - ").isPrefixOf nxt then (i, st)
      else if (searchTopicId nxt).isSome then (i, st)
      else if (searchCallId nxt).isSome then (i, st)
      else if isTitleNoiseLine nxt then gatherLoopGo fuel lines (i + 1) st
      else if stopTitle nxt then (i, st)
      else if firstTokenIsAction nxt then
        match parse_overview_block lines i with
        | some (ov, newI) =>
          let st := { st with
            pendingActionType := some ov.action_type
            pendingBudgetTotal := some ov.budget_eur_m
            pendingPerMin := some ov.budget_per_project_min_eur_m
            pendingPerMax := some ov.budget_per_project_max_eur_m
            pendingProjects := some ov.projects }
          let i2 := descLoopGo (lines.length + 1) lines newI 0
          extraLoopGo 2 lines i2 st
        | none => gatherLoopGo fuel lines (i + 1) st
      else gatherLoopGo fuel lines (i + 1) st
    else (i, st)

/-- The main line loop of `parse_calls`. -/
def mainLoopGo : Nat → List (List Char) → Nat → ScanSt → ScanSt
  | 0, _, _, st => st
  | fuel + 1, lines, i, st =>
    if h : i < lines.length then
      let ln := lines.get ⟨i, h⟩
      if (pageMarker ln).isSome then mainLoopGo fuel lines (i + 1) st
      else if (chars "Call - ").isPrefixOf ln then
        let st := flushTopic st
        let st := { st with
          currentCallId := none
          currentOpening := none
          currentDeadline := none }
        mainLoopGo fuel lines (i + 1) st
      else
        match searchCallId ln, searchTopicId ln with
        | some cid, none =>
          mainLoopGo fuel lines (i + 1) { st with currentCallId := some cid }
        | _, _ =>
          match openingTail ln with
          | some t =>
            mainLoopGo fuel lines (i + 1)
              { st with currentOpening := some (hNorm t) }
          | none =>
            match deadlineTail ln with
            | some t =>
              mainLoopGo fuel lines (i + 1)
                { st with currentDeadline := some (hNorm t) }
            | none =>
              match searchTopicId ln with
              | some tid =>
                let st := flushTopic st
                let st := { st with pendingTopicId := some tid }
                let i1 := titleLoopGo (lines.length + 1) lines (i + 1) 0
                let (i2, st) := gatherLoopGo (lines.length + 1) lines i1 st
                let st := flushTopic st
                mainLoopGo fuel lines i2 st
              | none => mainLoopGo fuel lines (i + 1) st
    else st

/-- Populated-field test of `score` (`r.get(k) not in (None, "", 0)`) for
the three field shapes. -/
def optStrPopulated (o : Option (List Char)) : Bool :=
  match o with | none => false | some s => ¬ s.isEmpty

def optRatPopulated (o : Option ℚ) : Bool :=
  match o with | none => false | some q => q ≠ 0

def optNatPopulated (o : Option Nat) : Bool :=
  match o with | none => false | some n => n ≠ 0

/-- `score(r)`: the number of populated overview-derived fields. -/
def scoreRow (r : Row) : Nat :=
  (if optStrPopulated r.action_type then 1 else 0) +
  (if optRatPopulated r.budget_eur_m then 1 else 0) +
  (if optNatPopulated r.projects then 1 else 0) +
  (if optRatPopulated r.budget_per_project_min_eur_m then 1 else 0) +
  (if optRatPopulated r.budget_per_project_max_eur_m then 1 else 0)

/-- One `best_by_topic[topic_id] = row`-style insertion: replace the
existing entry for this topic id in place when the new row scores strictly
higher, otherwise keep it; a new topic id is appended (dict insertion
order). -/
def insertBest : List Row → Row → List Row
  | [], r => [r]
  | x :: xs, r =>
    if x.topic_id = r.topic_id then
      (if scoreRow r > scoreRow x then r else x) :: xs
    else x :: insertBest xs r

/-- Code-point lexicographic string order (Python `str` comparison). -/
def strLtB : List Char → List Char → Bool
  | [], [] => false
  | [], _ :: _ => true
  | _ :: _, [] => false
  | a :: xs, b :: ys => if a < b then true else if a = b then strLtB xs ys
    else false

/-- The sort key `(r.get("call_id") or "", r.get("topic_id") or "")` with
Python tuple comparison (`topic_id` is never empty in an emitted row). -/
def keyLtB (r1 r2 : Row) : Bool :=
  let c1 := r1.call_id.getD []
  let c2 := r2.call_id.getD []
  strLtB c1 c2 || (c1 = c2 && strLtB r1.topic_id r2.topic_id)

/-- Insertion sort by the row key.  The emitted rows have pairwise distinct
topic ids (proved below), hence pairwise distinct keys, so every comparison
sort — in particular the source's `list.sort` — produces this list. -/
def insertSorted (r : Row) : List Row → List Row
  | [] => [r]
  | x :: xs => if keyLtB r x then r :: x :: xs else x :: insertSorted r xs

def sortRows (l : List Row) : List Row := l.foldr insertSorted []

/-- `parse_calls(text)` (projected onto the verified fields): normalize and
filter the lines, merge split identifiers, scan, fold the flushed rows into
the per-topic best map, and sort its values. -/
def parse_calls (text : List Char) : List Row :=
  let rawLines := ((splitlines text).map hNorm).filter (fun l => ¬ l.isEmpty)
  let lines := mergeLines rawLines
  let st := mainLoopGo (lines.length + 1) lines 0 initSt
  let st := flushTopic st
  let best := st.events.foldl insertBest []
  sortRows best

/-- The flush-ordered row list of a parse (the contents of `best_by_topic`
before sorting are `(scanEvents text).foldl insertBest []`). -/
def scanEvents (text : List Char) : List Row :=
  let rawLines := ((splitlines text).map hNorm).filter (fun l => ¬ l.isEmpty)
  let lines := mergeLines rawLines
  (flushTopic (mainLoopGo (lines.length + 1) lines 0 initSt)).events

/- ===================================================================
   lambda_function.py — row post-processing and filtering
   =================================================================== -/

/-- `_compute_budget_per_project_m(row)`: the minimum of whichever of the
explicit min, explicit max and flat per-project values are present. -/
def compute_budget_per_project_m (r : Row) : Option ℚ :=
  let vals := [r.budget_per_project_min_eur_m, r.budget_per_project_max_eur_m,
    r.budget_per_project_m].filterMap id
  match vals with
  | [] => none
  | v :: vs => some (vs.foldl min v)

/-- The allow-set built at the top of `filter_rows`
(`{str(t).upper() for t in action_types if str(t).strip()}`, demoted to
`None` when `action_types` is falsy or the set comes out empty). -/
def allowedSet (action_types : Option (List (List Char))) :
    Option (List (List Char)) :=
  match action_types with
  | none => none
  | some l =>
    if l.isEmpty then none
    else
      let al := (l.filter (fun t => ¬ (pstrip t).isEmpty)).map upperStr
      if al.isEmpty then none else some al

/-- The per-row condition of the `filter_rows` loop. -/
def rowPasses (allowed : Option (List (List Char))) (min_budget : Option ℚ)
    (opening_filter deadline_filter : List Char) (r : Row) : Bool :=
  (match allowed with
   | none => true
   | some al => al.contains (upperStr (r.action_type.getD []))) &&
  (match min_budget with
   | none => true
   | some m =>
     let bv := match r.budget_per_project_min_eur_m with
       | some v => some v
       | none => compute_budget_per_project_m r
     decide (¬ bv.getD 0 < m)) &&
  date_filter_match r.opening_date opening_filter &&
  date_filter_match r.deadline_date deadline_filter

/-- `filter_rows`. -/
def filter_rows (rows : List Row) (action_types : Option (List (List Char)))
    (min_budget_m : Option ℚ) (opening_filter deadline_filter : List Char) :
    List Row :=
  rows.filter (rowPasses (allowedSet action_types) min_budget_m
    opening_filter deadline_filter)

/-- The row post-processing of `_process_pdf_key` after `parse_calls`
(S3 transport, spreadsheet writing and the OpenAI description pass — which
runs only when an API key is configured and touches only the omitted
`topic_description` field — are outside the embedded core): derive the
per-project budget into `budget_per_project_min_eur_m`/`budget_per_project_m`,
filter, then re-derive for rows left without a minimum (`min_budget_m=None`
falls back to `DEFAULT_MIN_BUDGET_M`, whose default configuration is `0`).
The final `topic_body` pop touches an omitted field. -/
def process_rows (rows : List Row) (action_types : Option (List (List Char)))
    (min_budget_m : Option ℚ) (opening_filter deadline_filter : List Char) :
    List Row :=
  let minB : Option ℚ := some (min_budget_m.getD 0)
  let rows1 := rows.map (fun r =>
    let d := compute_budget_per_project_m r
    { r with
      budget_per_project_min_eur_m := d
      budget_per_project_m := d })
  let rows2 := filter_rows rows1 action_types minB opening_filter
    deadline_filter
  rows2.map (fun r =>
    if r.budget_per_project_min_eur_m = none then
      let d := compute_budget_per_project_m r
      { r with
        budget_per_project_min_eur_m := d
        budget_per_project_m := d }
    else r)

/- ===================================================================
   parser_edf.py
   =================================================================== -/

/-- `_norm` from parser_edf.py: drop soft hyphens, strip, collapse
whitespace. -/
def eNorm (s : List Char) : List Char :=
  normWs (s.filter (fun c => c ≠ '­'))

/-- `CALL_FAMILY_LABELS` keys. -/
def callFamilyCodes : List (List Char) := [chars "RA", chars "DA", chars "CSA"]

/-- Python `str.split(sep)` for a single-character separator (keeps empty
pieces). -/
def splitCharGo : Nat → List Char → List Char → Char → List (List Char)
  | 0, acc, _, _ => [acc.reverse]
  | _ + 1, acc, [], _ => [acc.reverse]
  | fuel + 1, acc, c :: rest, sep =>
    if c = sep then acc.reverse :: splitCharGo fuel [] rest sep
    else splitCharGo fuel (c :: acc) rest sep

def splitChar (s : List Char) (sep : Char) : List (List Char) :=
  splitCharGo s.length [] s sep

/-- `_extract_call_family(call_id)`. -/
def extract_call_family (call_id : Option (List Char)) :
    Option (List Char) :=
  match call_id with
  | none => none
  | some cid =>
    let parts := splitChar cid '-'
    match parts.get? 2 with
    | none => none
    | some fam =>
      if fam.isEmpty then none
      else
        let fam := upperStr fam
        if callFamilyCodes.contains fam then some fam else none

/-- `_has_large_scale_token(identifier)`. -/
def has_large_scale_token (identifier : Option (List Char)) : Bool :=
  match identifier with
  | none => false
  | some idf =>
    let parts := splitChar idf '-'
    if parts.length < 4 then false
    else (parts.drop 3).any (fun p => upperStr p = chars "LS")

/-- `re.search(r"\blarge[-\s]?scale\b", blob, IGNORECASE)`. -/
def largeScaleAt (s : List Char) : Bool :=
  if isPrefixCI (chars "large") s then
    let r := s.drop 5
    let tryScale := fun (t : List Char) =>
      isPrefixCI (chars "scale") t && bAfterW (t.drop 5)
    match r with
    | c :: rest => (if c = '-' || isPySpace c then tryScale rest else false) ||
        tryScale r
    | [] => false
  else false

def searchLargeScaleGo : Nat → Option Char → List Char → Bool
  | 0, _, _ => false
  | _ + 1, _, [] => false
  | fuel + 1, prev, c :: rest =>
    let bOk := match prev with | none => true | some p => ¬ isWordChar p
    if bOk && largeScaleAt (c :: rest) then true
    else searchLargeScaleGo fuel (some c) rest

def searchLargeScale (s : List Char) : Bool :=
  searchLargeScaleGo s.length none s

/-- `_is_large_scale(call_id, topic_id, title, desc)`. -/
def is_large_scale (call_id topic_id : Option (List Char))
    (title desc : List Char) : Bool :=
  has_large_scale_token topic_id || has_large_scale_token call_id ||
  searchLargeScale (title ++ ' ' :: desc)

/-- Python `float(...)` on the cleaned numeric strings `_to_millions`
builds: optional digits, optional `.`, optional digits, at least one digit
in total, allowing surrounding whitespace; everything else raises
(`none`). -/
def pyFloatParse (s : List Char) : Option ℚ :=
  let t := pstrip s
  let I := t.takeWhile Char.isDigit
  match t.drop I.length with
  | [] => if I.isEmpty then none else some (mkRat (natOfDigits I) 1)
  | '.' :: F =>
    if (F.all Char.isDigit) && ¬ (I.isEmpty && F.isEmpty) then
      some (mkRat (natOfDigits I * 10 ^ F.length + natOfDigits F)
        (10 ^ F.length))
    else none
  | _ => none

/-- Round-half-even of the fraction `a / b` (`b` positive), on raw integer
components so that it reduces in the kernel: `f = ⌊a/b⌋`, and the remainder
`r = a/b - f` is compared with `1/2` via `2·(a − f·b)` against `b`. -/
def rheInt (a b : ℤ) : ℤ :=
  let f := Int.fdiv a b
  let r2 := 2 * (a - f * b)
  if r2 < b then f
  else if b < r2 then f + 1
  else if f % 2 = 0 then f else f + 1

/-- Python `round(q, 2)` (banker's rounding at two decimals, exact on the
rational model of the parsed decimals): round-half-even of `q·100`, divided
by 100. -/
def round2 (q : ℚ) : ℚ := mkRat (rheInt (q.num * 100) (q.den : ℤ)) 100

/-- `_to_millions(amount_text)`: keep digits, commas, dots and whitespace,
drop ASCII spaces and commas, parse as a float, divide by 1 000 000 and
round to two decimals. -/
def to_millions (amount_text : List Char) : Option ℚ :=
  let cleaned := amount_text.filter (fun c =>
    c.isDigit || c = ',' || c = '.' || isPySpace c)
  let cleaned := cleaned.filter (fun c => c ≠ ' ')
  let cleaned := cleaned.filter (fun c => c ≠ ',')
  if cleaned.isEmpty then none
  else
    match pyFloatParse cleaned with
    | none => none
    | some v => some (round2 (mkRat v.num (v.den * 1000000)))

/-- First branch of `_extract_budget`
(`re.search(r"EUR\s*([0-9][0-9 ., ]*)", line, IGNORECASE)`; the literal
`EUR` needs no word boundary). -/
def isBudgetRunChar (c : Char) : Bool :=
  c.isDigit || c = ' ' || c = '.' || c = ',' || c = ' '

def searchEurAmountGo : Nat → List Char → Option (List Char)
  | 0, _ => none
  | _ + 1, [] => none
  | fuel + 1, c :: rest =>
    if isPrefixCI (chars "eur") (c :: rest) then
      let r := ((c :: rest).drop 3).dropWhile isPySpace
      match r with
      | d :: r2 =>
        if d.isDigit then some (d :: r2.takeWhile isBudgetRunChar)
        else searchEurAmountGo fuel rest
      | [] => searchEurAmountGo fuel rest
    else searchEurAmountGo fuel rest

/-- Second branch of `_extract_budget`
(`re.search(r"([0-9][0-9 ., ]*)\s*EUR", line, IGNORECASE)`). -/
def searchAmountEurGo : Nat → List Char → Option (List Char)
  | 0, _ => none
  | _ + 1, [] => none
  | fuel + 1, c :: rest =>
    if c.isDigit then
      let run := c :: rest.takeWhile isBudgetRunChar
      let after := ((c :: rest).drop run.length).dropWhile isPySpace
      if isPrefixCI (chars "eur") after then some run
      else searchAmountEurGo fuel rest
    else searchAmountEurGo fuel rest

/-- `_extract_budget(line)`. -/
def extract_budget (line : List Char) : Option ℚ :=
  match searchEurAmountGo line.length line with
  | some g => to_millions g
  | none =>
    match searchAmountEurGo line.length line with
    | some g => to_millions g
    | none => none

/-- `_extract_topic_budget_eur_m(line)`. -/
def extract_topic_budget_eur_m (line : List Char) : Option ℚ :=
  if containsSub (lowerStr line) (chars "indicative budget") &&
     containsSub (lowerStr line) (chars "for this topic")
  then extract_budget line else none

/-- `_extract_call_budget_eur_m(line)`. -/
def extract_call_budget_eur_m (line : List Char) : Option ℚ :=
  if containsSub (lowerStr line) (chars "indicative budget for the call")
  then extract_budget line else none

/-- `re.search(r"(\d{1,3})\s?%", line)`: at each digit position, try the
greedy 1–3 digit slices, each followed by an optional single whitespace and
`%`. -/
def pctAt (s : List Char) : Option Nat :=
  let run := s.takeWhile Char.isDigit
  ((List.range (min 3 run.length)).reverse.map (fun k => k + 1)).findSome?
    (fun k =>
      let after := s.drop k
      let after := match after with
        | c :: r => if isPySpace c then r else after
        | [] => after
      match after with
      | '%' :: _ => some (natOfDigits (run.take k))
      | _ => none)

def searchPctGo : Nat → List Char → Option Nat
  | 0, _ => none
  | _ + 1, [] => none
  | fuel + 1, c :: rest =>
    if c.isDigit then
      match pctAt (c :: rest) with
      | some v => some v
      | none => searchPctGo fuel rest
    else searchPctGo fuel rest

/-- `_extract_funding_percentage(line)`: a percentage is surfaced only when
the line carries explicit funding wording. -/
def fundingKeywords : List (List Char) :=
  [chars "funding rate", chars "funding level", chars "funding intensity",
   chars "funding percentage", chars "eu funding", chars "union funding",
   chars "co-funding", chars "cofunding"]

def extract_funding_percentage (line : List Char) : Option ℚ :=
  if ¬ fundingKeywords.any (fun kw => containsSub (lowerStr line) kw) then
    none
  else
    match searchPctGo line.length line with
    | some v => some (mkRat v 1)
    | none => none

/-- Section-number capture `(\d+(?:\.\d+)*)(?:\.)?`: greedy dotted numeric
groups, then an optional trailing dot (not part of the captured group). -/
def secTailGo : Nat → List Char → List Char × List Char
  | 0, s => ([], s)
  | _ + 1, [] => ([], [])
  | fuel + 1, s =>
    match s with
    | '.' :: r =>
      let ds := r.takeWhile Char.isDigit
      if ds.isEmpty then ([], s)
      else
        let (more, rest) := secTailGo fuel (r.drop ds.length)
        ('.' :: ds ++ more, rest)
    | _ => ([], s)

def parseSecNo (s : List Char) : Option (List Char) × List Char :=
  let ds := s.takeWhile Char.isDigit
  if ds.isEmpty then (none, s)
  else
    let (more, rest) := secTailGo s.length (s.drop ds.length)
    let rest := match rest with | '.' :: r => r | _ => rest
    (some (ds ++ more), rest)

/-- `(?:-[A-Z0-9]+)+` under IGNORECASE: greedy alphanumeric segments. -/
def collectAlnumSegsGo : Nat → List Char → List Char × List Char
  | 0, s => ([], s)
  | fuel + 1, s =>
    match s with
    | '-' :: r =>
      let seg := r.takeWhile isAsciiAlnum
      if seg.isEmpty then ([], s)
      else
        let (more, rem) := collectAlnumSegsGo fuel (r.drop seg.length)
        ('-' :: seg ++ more, rem)
    | _ => ([], s)

/-- `EDF-\d{4}-[A-Z]{2,}(?:-[A-Z0-9]+)+` (IGNORECASE) at the current
position; returns the matched text (original case) and the remainder.  The
letter run and the segments are forced maximal (shortening leaves a
word character where `-`/the caller's continuation is required). -/
def matchEdfTopicIdAt (s : List Char) : Option (List Char × List Char) :=
  if isPrefixCI (chars "edf-") s then
    match takeDigits 4 (s.drop 4) with
    | some (y4, '-' :: r) =>
      let letters := r.takeWhile isAsciiLetter
      if letters.length < 2 then none
      else
        let (segs, rem) := collectAlnumSegsGo r.length (r.drop letters.length)
        if segs.isEmpty then none
        else some (s.take 4 ++ y4 ++ '-' :: letters ++ segs, rem)
    | _ => none
  else none

/-- `EDF-\d{4}-[A-Z]{2,}` (IGNORECASE) at the current position (no trailing
boundary; the callers add their own). -/
def matchEdfCallIdAt (s : List Char) : Option (List Char × List Char) :=
  if isPrefixCI (chars "edf-") s then
    match takeDigits 4 (s.drop 4) with
    | some (y4, '-' :: r) =>
      let letters := r.takeWhile isAsciiLetter
      if letters.length < 2 then none
      else some (s.take 4 ++ y4 ++ '-' :: letters, r.drop letters.length)
    | _ => none
  else none

/-- `RE_CALL.search` (`\b(EDF-\d{4}-[A-Z]{2,})\b`, IGNORECASE), uppercased
as every caller applies `.upper()`. -/
def searchEdfCallGo : Nat → Option Char → List Char → Option (List Char)
  | 0, _, _ => none
  | _ + 1, _, [] => none
  | fuel + 1, prev, c :: rest =>
    let bOk := match prev with | none => true | some p => ¬ isWordChar p
    if bOk then
      match matchEdfCallIdAt (c :: rest) with
      | some (cid, rem) =>
        if bAfterW rem then some (upperStr cid)
        else searchEdfCallGo fuel (some c) rest
      | none => searchEdfCallGo fuel (some c) rest
    else searchEdfCallGo fuel (some c) rest

def searchEdfCall (s : List Char) : Option (List Char) :=
  searchEdfCallGo s.length none s

/-- `RE_TOPIC_LINE.match`: optional section number, the topic id, then
`\s*:\s*(.+?)\s*$`.  The lazy title group makes the captured title the
colon tail with surrounding whitespace trimmed; a bare all-whitespace tail
still matches (capturing one whitespace character, which every consumer
normalizes away), an empty tail does not. -/
def matchEdfTopicLine (ln : List Char) :
    Option (Option (List Char) × List Char × List Char) :=
  let s := ln.dropWhile isPySpace
  let (sec, s) := parseSecNo s
  let s := s.dropWhile isPySpace
  match matchEdfTopicIdAt s with
  | some (tid, rest) =>
    match rest.dropWhile isPySpace with
    | ':' :: r2 =>
      if r2.isEmpty then none else some (sec, upperStr tid, pstrip r2)
    | _ => none
  | none => none

/-- `RE_TOPIC_ONLY` (anchored on both sides, so `search` is a full-line
match): optional section number, the topic id, trailing whitespace only. -/
def matchEdfTopicOnly (ln : List Char) :
    Option (Option (List Char) × List Char) :=
  let s := ln.dropWhile isPySpace
  let (sec, s) := parseSecNo s
  let s := s.dropWhile isPySpace
  match matchEdfTopicIdAt s with
  | some (tid, rest) =>
    if rest.all isPySpace then some (sec, upperStr tid) else none
  | none => none

/-- `RE_CALL_LINE.match`: optional section number, `Call`, whitespace, the
call id ending at a word boundary, an optional `:`/`-`, whitespace, and the
free remainder (the call title candidate). -/
def matchEdfCallLine (ln : List Char) :
    Option (Option (List Char) × List Char × List Char) :=
  let s := ln.dropWhile isPySpace
  let (sec, s) := parseSecNo s
  let s := s.dropWhile isPySpace
  if isPrefixCI (chars "call") s then
    let r := s.drop 4
    if (r.takeWhile isPySpace).isEmpty then none
    else
      let r2 := r.dropWhile isPySpace
      match matchEdfCallIdAt r2 with
      | some (cid, rem) =>
        if bAfterW rem then
          let rem2 := match rem with
            | ':' :: t => t
            | '-' :: t => t
            | _ => rem
          some (sec, upperStr cid, rem2.dropWhile isPySpace)
        else none
      | none => none
  else none

/-- `TOC_START.search` (`\bTable of contents\b`, IGNORECASE). -/
def searchTocStartGo : Nat → Option Char → List Char → Bool
  | 0, _, _ => false
  | _ + 1, _, [] => false
  | fuel + 1, prev, c :: rest =>
    let bOk := match prev with | none => true | some p => ¬ isWordChar p
    if bOk && isPrefixCI (chars "table of contents") (c :: rest) &&
       bAfterW ((c :: rest).drop 17) then true
    else searchTocStartGo fuel (some c) rest

def searchTocStart (s : List Char) : Bool := searchTocStartGo s.length none s

/-- `TOC_END.match` (`^\s*1\.\s*Content of the document\b`, IGNORECASE). -/
def matchTocEnd (s : List Char) : Bool :=
  match s.dropWhile isPySpace with
  | '1' :: '.' :: r =>
    let r := r.dropWhile isPySpace
    isPrefixCI (chars "content of the document") r && bAfterW (r.drop 23)
  | _ => false

/-- `_STOPWORDS`. -/
def edfStopwords : List (List Char) :=
  [chars "of", chars "in", chars "on", chars "to", chars "by", chars "an",
   chars "or", chars "if", chars "at", chars "be", chars "is", chars "it",
   chars "we", chars "il", chars "la", chars "le", chars "un", chars "una"]

/-- `_repair_broken_words`: merge a 1–2 letter all-lowercase non-stopword
fragment with a following all-lowercase word of ≥ 3 letters
(`re.sub(r"\b([A-Za-z]{1,3})\s+([a-z]{3,})\b", repl, title)`; the pattern
also matches 3-letter or capitalized first words and uppercase-free second
words, which the replacement leaves unchanged while still consuming the
match). -/
def repairRepl (first ws second : List Char) : List Char :=
  if first.length ≤ 2 && ¬ edfStopwords.contains (lowerStr first) &&
     first.all isAsciiLetter && first.all isAsciiLower &&
     second.all isAsciiLetter && second.all isAsciiLower then
    first ++ second
  else first ++ ws ++ second

def repairBrokenWordsGo : Nat → Bool → List Char → List Char
  | 0, _, s => s
  | _ + 1, _, [] => []
  | fuel + 1, prevWord, c :: rest =>
    if isAsciiLetter c && ¬ prevWord then
      let (first, afterFirst) := letterRun (c :: rest)
      let tryRest :=
        if first.length > 3 then none
        else
          let ws := afterFirst.takeWhile isPySpace
          if ws.isEmpty then none
          else
            let afterWs := afterFirst.dropWhile isPySpace
            let second := afterWs.takeWhile isAsciiLower
            if second.length ≥ 3 && bAfterW (afterWs.drop second.length) then
              some (repairRepl first ws second, afterWs.drop second.length)
            else none
      match tryRest with
      | some (out, after) => out ++ repairBrokenWordsGo fuel true after
      | none => first ++ repairBrokenWordsGo fuel true afterFirst
    else c :: repairBrokenWordsGo fuel (isWordChar c) rest

def repair_broken_words (s : List Char) : List Char :=
  repairBrokenWordsGo s.length false s

/-- `re.sub(r"\.{2,}\s*\d*\s*$", "", cleaned)`: drop a trailing dotted
leader (2+ dots, optional whitespace, optional page digits, optional
whitespace) at the leftmost position where it reaches the end. -/
def dotLeaderSuffixAt (s : List Char) : Bool :=
  let dots := s.takeWhile (fun c => c = '.')
  if dots.length < 2 then false
  else
    let r := (s.drop dots.length).dropWhile isPySpace
    let r := r.dropWhile Char.isDigit
    r.all isPySpace

def dotLeaderSubGo : Nat → List Char → List Char
  | 0, s => s
  | _ + 1, [] => []
  | fuel + 1, c :: rest =>
    if dotLeaderSuffixAt (c :: rest) then []
    else c :: dotLeaderSubGo fuel rest

/-- `_clean_title(title)`. -/
def clean_title (title : List Char) : List Char :=
  let cleaned := eNorm title
  if cleaned.isEmpty then []
  else
    let cleaned := dotLeaderSubGo cleaned.length cleaned
    let cleaned := pstripChars cleaned [' ', '.', '-', '–']
    repair_broken_words cleaned

/-- `BAD_TITLE_HINTS`, uppercased for the containment test. -/
def badTitleHints : List (List Char) :=
  [chars "SENSITIVE UNTIL ADOPTION", chars "CONTENT OF THE DOCUMENT",
   chars "TABLE OF CONTENTS", chars "APPENDIX", chars "<<<PAGE"]

/-- `_is_bad_title(t)`. -/
def is_bad_title (t : List Char) : Bool :=
  if t.isEmpty then true
  else
    let up := upperStr t
    badTitleHints.any (fun h => containsSub up h) || 140 < t.length

/-- `_looks_like_title_fragment(line)`. -/
def looks_like_title_fragment (line : List Char) : Bool :=
  let low := lowerStr line
  if line.isEmpty || (psplit line).length < 2 then false
  else if containsSub low (chars "type of action") ||
    containsSub low (chars "indicative budget") ||
    containsSub low (chars "number of actions") ||
    pstrip low = chars "step" then false
  else if (matchEdfTopicOnly line).isSome || (searchEdfCall line).isSome then
    false
  else true

/-- `\bstep\b.*\byes\b` / `\bstep\b.*\bno\b` (IGNORECASE): a word-bounded
`step` somewhere, then a word-bounded `yes`/`no` later in the line. -/
def searchWordGo : Nat → Option Char → List Char → List Char → Option (List Char)
  | 0, _, _, _ => none
  | _ + 1, _, [], _ => none
  | fuel + 1, prev, c :: rest, w =>
    let bOk := match prev with | none => true | some p => ¬ isWordChar p
    if bOk && isPrefixCI w (c :: rest) && bAfterW ((c :: rest).drop w.length)
    then some ((c :: rest).drop w.length)
    else searchWordGo fuel (some c) rest w

def searchWord (s w : List Char) : Option (List Char) :=
  searchWordGo s.length none s w

def stepThen (ln : List Char) (w : List Char) : Bool :=
  match searchWord ln (chars "step") with
  | some rest =>
    (searchWordGo rest.length (some 'p') rest w).isSome
  | none => false

/-- The record dictionaries of `parse_edf` (`section_no` is stored; the
never-read `page` stays `none` as in the source, where no rule assigns it).
The two scanner-internal flags the post-pass pops are carried as fields. -/
structure EdfRec where
  record_level : List Char
  call_id : Option (List Char)
  topic_id : Option (List Char)
  topic_title : List Char
  title : List Char
  section_no : Option (List Char)
  type_of_action : List Char
  indicative_budget_eur_m : Option ℚ
  call_indicative_budget_eur_m : Option ℚ
  number_of_actions : Option Nat
  call_family : Option (List Char)
  step : Option Bool
  page : Option Nat
  topic_description_verbatim : List Char
  is_large_scale : Bool
  funding_percentage : Option ℚ
  opening_date : Option (List Char)
  deadline_date : Option (List Char)
  inDesc : Bool
  awaitingTitle : Bool
deriving DecidableEq, Repr

/-- Scanner state of `parse_edf` (`current`/`current_call_record` are
references into `records`, modelled as indices; a call record and a topic
record are always distinct entries). -/
structure EdfSt where
  records : List EdfRec
  current : Option Nat
  currentCallId : Option (List Char)
  currentCallRecord : Option Nat
  inToc : Bool

def modifyAt : List α → Nat → (α → α) → List α
  | [], _, _ => []
  | x :: xs, 0, f => f x :: xs
  | x :: xs, n + 1, f => x :: modifyAt xs n f

/-- `_call_family_topic(tid)` (closure inside `parse_edf`). -/
def call_family_topic (tid : List Char) : Option (List Char) :=
  match searchEdfCall tid with
  | some cid => some cid
  | none =>
    let parts := splitChar tid '-'
    if 3 ≤ parts.length then
      some (upperStr ((parts.take 3).intersperse (chars "-")).flatten)
    else none

/-- `ensure_current(topic_id, title, awaiting_title, section_no)`. -/
def ensureCurrent (st : EdfSt) (topic_id : List Char) (title : List Char)
    (awaiting_title : Bool) (section_no : Option (List Char)) : EdfSt :=
  let records := match st.current with
    | some idx => modifyAt st.records idx (fun r => { r with inDesc := false })
    | none => st.records
  let cleaned0 := clean_title title
  let cleaned := if is_bad_title cleaned0 then [] else cleaned0
  let call_id := match st.currentCallId with
    | some c => some c
    | none => call_family_topic topic_id
  let rec_ : EdfRec :=
    { record_level := chars "TOPIC"
      call_id := call_id
      topic_id := some topic_id
      topic_title := cleaned
      title := if cleaned.isEmpty then topic_id else cleaned
      section_no := section_no
      type_of_action := []
      indicative_budget_eur_m := none
      call_indicative_budget_eur_m := none
      number_of_actions := none
      call_family := extract_call_family call_id
      step := none
      page := none
      topic_description_verbatim := []
      is_large_scale := false
      funding_percentage := none
      opening_date := none
      deadline_date := none
      inDesc := false
      awaitingTitle := awaiting_title || cleaned.isEmpty }
  { st with
    records := records ++ [rec_]
    current := some records.length }

/-- Title-continuation capture (short line immediately after a bare id). -/
def capTitleCont (ln : List Char) (cur : EdfRec) : EdfRec :=
  if cur.awaitingTitle && looks_like_title_fragment ln then
    let fragment := clean_title ln
    if ¬ fragment.isEmpty && ¬ is_bad_title fragment then
      { cur with topic_title := fragment, awaitingTitle := false }
    else cur
  else cur

/-- `Type of action:` capture. -/
def capTypeOfAction (ln : List Char) (cur : EdfRec) : EdfRec :=
  if containsSub (lowerStr ln) (chars "type of action") then
    let tail := match psplitOnce ln ':' with
      | some (_, t) => pstrip t
      | none => ln
    let newVal := if ¬ tail.isEmpty then tail
      else if ¬ cur.type_of_action.isEmpty then cur.type_of_action
      else []
    { cur with type_of_action := newVal }
  else cur

/-- Topic-level indicative-budget capture. -/
def capTopicBudget (ln : List Char) (cur : EdfRec) : EdfRec :=
  match extract_topic_budget_eur_m ln with
  | some v => { cur with indicative_budget_eur_m := some v }
  | none => cur

/-- Funding-percentage capture (first explicit value wins). -/
def capFunding (ln : List Char) (cur : EdfRec) : EdfRec :=
  match extract_funding_percentage ln with
  | some v =>
    if cur.funding_percentage = none then
      { cur with funding_percentage := some v }
    else cur
  | none => cur

/-- `Number of actions:` capture (`re.search(r"(\d+)", ln)` takes the first
digit run). -/
def capNumActions (ln : List Char) (cur : EdfRec) : EdfRec :=
  if containsSub (lowerStr ln) (chars "number of actions") then
    match ln.dropWhile (fun c => ¬ c.isDigit) with
    | [] => cur
    | d :: r =>
      { cur with
        number_of_actions := some (natOfDigits ((d :: r).takeWhile Char.isDigit)) }
  else cur

/-- STEP yes/no capture (the final `"step" in ln.upper()` test compares a
lowercase needle against an uppercased line and so never fires; embedded as
written). -/
def capStep (ln : List Char) (cur : EdfRec) : EdfRec :=
  if containsSub (lowerStr ln) (chars "step") then
    if stepThen ln (chars "yes") then { cur with step := some true }
    else if stepThen ln (chars "no") then { cur with step := some false }
    else if cur.step = none && containsSub (upperStr ln) (chars "step") then
      { cur with step := some true }
    else cur
  else cur

/-- Verbatim-description start detection and accumulation. -/
def capDesc (raw_ln ln : List Char) (cur : EdfRec) : EdfRec :=
  let startDesc :=
    [chars "objectives", chars "general objective", chars "specific objective",
     chars "scope and types of activities"].any
      (fun h => containsSub (lowerStr ln) h)
  let cur : EdfRec := if startDesc then { cur with inDesc := true } else cur
  if cur.inDesc then
    { cur with
      topic_description_verbatim :=
        if cur.topic_description_verbatim.isEmpty then prstrip raw_ln
        else cur.topic_description_verbatim ++ '\n' :: prstrip raw_ln }
  else cur

/-- Opening-date / deadline capture
(`current["..."] = tail or current.get("...")`). -/
def capDates (ln : List Char) (cur : EdfRec) : EdfRec :=
  let low := lowerStr ln
  let colonTail : List Char → List Char := fun u =>
    match psplitOnce u ':' with
    | some (_, t) => pstrip t
    | none => u
  let cur : EdfRec :=
    if containsSub low (chars "opening date") then
      let tail := colonTail ln
      if ¬ tail.isEmpty then { cur with opening_date := some tail } else cur
    else cur
  if containsSub low (chars "deadline") then
    let tail := colonTail ln
    if ¬ tail.isEmpty then { cur with deadline_date := some tail } else cur
  else cur

/-- Title fallback for prose lines of more than three words. -/
def capTitleFallback (ln : List Char) (cur : EdfRec) : EdfRec :=
  if cur.awaitingTitle && cur.topic_title.isEmpty &&
     3 < (psplit ln).length && ¬ (searchEdfCall ln).isSome then
    let candidate := clean_title ln
    if ¬ candidate.isEmpty && ¬ is_bad_title candidate then
      { cur with topic_title := candidate, awaitingTitle := false }
    else cur
  else cur

/-- The per-line field-capture pass applied when a topic record is current
(the sequence of non-exclusive `if` blocks of the main loop, in source
order; the call-level budget also lands on the current call record, always a
distinct entry from the current topic record). -/
def edfFieldPass (st : EdfSt) (raw_ln ln : List Char) : EdfSt :=
  match st.current with
  | none => st
  | some ci =>
    match st.records.get? ci with
    | none => st
    | some cur =>
      let cur := capTitleCont ln cur
      let cur := capTypeOfAction ln cur
      let callBudget := extract_call_budget_eur_m ln
      let records :=
        match callBudget, st.currentCallRecord with
        | some v, some cri =>
          modifyAt st.records cri
            (fun r => { r with call_indicative_budget_eur_m := some v })
        | _, _ => st.records
      let cur := match callBudget with
        | some v => { cur with call_indicative_budget_eur_m := some v }
        | none => cur
      let cur := capTopicBudget ln cur
      let cur := capFunding ln cur
      let cur := capNumActions ln cur
      let cur := capStep ln cur
      let cur := capDesc raw_ln ln cur
      let cur := capDates ln cur
      let cur := capTitleFallback ln cur
      { st with records := modifyAt records ci (fun _ => cur) }

/-- One line of the `parse_edf` main loop. -/
def edfLineStep (st : EdfSt) (raw_ln : List Char) : EdfSt :=
  let ln := eNorm raw_ln
  if searchTocStart ln then { st with inToc := true }
  else if st.inToc && matchTocEnd ln then { st with inToc := false }
  else if st.inToc then st
  else
    match matchEdfCallLine ln with
    | some (section_no, call_id, titleRaw) =>
      let call_title0 := clean_title titleRaw
      let call_title := if call_title0.isEmpty then call_id else call_title0
      let rec_ : EdfRec :=
        { record_level := chars "CALL"
          call_id := some call_id
          topic_id := none
          topic_title := []
          title := call_title
          section_no := section_no
          type_of_action := []
          indicative_budget_eur_m := none
          call_indicative_budget_eur_m := none
          number_of_actions := none
          call_family := extract_call_family (some call_id)
          step := none
          page := none
          topic_description_verbatim := []
          is_large_scale := is_large_scale (some call_id) none call_title []
          funding_percentage := none
          opening_date := none
          deadline_date := none
          inDesc := false
          awaitingTitle := false }
      { st with
        records := st.records ++ [rec_]
        currentCallId := some call_id
        currentCallRecord := some st.records.length }
    | none =>
      match matchEdfTopicLine ln with
      | some (section_no, topic_id, title) =>
        ensureCurrent st topic_id title false section_no
      | none =>
        match matchEdfTopicOnly ln with
        | some (section_no, topic_id) =>
          ensureCurrent st topic_id [] true section_no
        | none => edfFieldPass st raw_ln ln

/-- The finalizing post-pass of `parse_edf`. -/
def edfPostFix (t : EdfRec) : EdfRec :=
  let call_family := match t.call_family with
    | some f => some f
    | none =>
      match extract_call_family t.call_id with
      | some f => some f
      | none => extract_call_family t.topic_id
  { t with
    call_family := call_family
    record_level := if t.record_level.isEmpty then chars "TOPIC"
      else t.record_level
    is_large_scale := is_large_scale t.call_id t.topic_id t.title
      t.topic_description_verbatim }

/-- `parse_edf(text)`. -/
def parse_edf (text : List Char) : List EdfRec :=
  let st := (splitlines text).foldl edfLineStep
    { records := [], current := none, currentCallId := none,
      currentCallRecord := none, inToc := false }
  st.records.map edfPostFix

/- ===================================================================
   Helper lemmas
   =================================================================== -/

theorem foldl_min_le_init (vs : List ℚ) : ∀ v : ℚ, vs.foldl min v ≤ v := by
  induction vs with
  | nil => intro v; exact le_refl v
  | cons w ws ih =>
    intro v
    calc (w :: ws).foldl min v = ws.foldl min (min v w) := rfl
    _ ≤ min v w := ih (min v w)
    _ ≤ v := min_le_left v w

theorem foldl_min_le_mem (vs : List ℚ) :
    ∀ (v x : ℚ), x ∈ vs → vs.foldl min v ≤ x := by
  induction vs with
  | nil => intro v x hx; cases hx
  | cons w ws ih =>
    intro v x hx
    rcases List.mem_cons.mp hx with h | h
    · subst h
      calc (x :: ws).foldl min v = ws.foldl min (min v x) := rfl
      _ ≤ min v x := foldl_min_le_init ws (min v x)
      _ ≤ x := min_le_right v x
    · exact ih (min v w) x h

/-- The derived per-project budget never exceeds a present explicit
maximum. -/
theorem compute_le_max (r : Row) (a b : ℚ)
    (ha : compute_budget_per_project_m r = some a)
    (hb : r.budget_per_project_max_eur_m = some b) : a ≤ b := by
  unfold compute_budget_per_project_m at ha
  rw [hb] at ha
  cases hmin : r.budget_per_project_min_eur_m with
  | none =>
    rw [hmin] at ha
    cases hflat : r.budget_per_project_m with
    | none =>
      rw [hflat] at ha
      simp only [List.filterMap] at ha
      simp at ha
      simp [ha]
    | some w =>
      rw [hflat] at ha
      simp only [List.filterMap] at ha
      simp at ha
      rw [← ha]
      exact foldl_min_le_init [w] b
  | some v =>
    rw [hmin] at ha
    cases hflat : r.budget_per_project_m with
    | none =>
      rw [hflat] at ha
      simp only [List.filterMap] at ha
      simp at ha
      rw [← ha]
      exact foldl_min_le_mem [b] v b (by simp)
    | some w =>
      rw [hflat] at ha
      simp only [List.filterMap] at ha
      simp at ha
      rw [← ha]
      exact foldl_min_le_mem [b, w] v b (by simp)

/- ===================================================================
   Claim C5
   =================================================================== -/

/-- C5: for every input text and every row produced by the Horizon pipeline
(parse_calls followed by the `_process_pdf_key` post-processing), when both
`budget_per_project_min_eur_m` and `budget_per_project_max_eur_m` are
present, the minimum is at most the maximum: the post-processing overwrites
the minimum with the least of the present per-project values, which a
present maximum always bounds. -/
theorem C5_budget_min_le_max (text : List Char)
    (aT : Option (List (List Char))) (mB : Option ℚ) (oF dF : List Char)
    (r : Row) (hr : r ∈ process_rows (parse_calls text) aT mB oF dF)
    (a b : ℚ) (ha : r.budget_per_project_min_eur_m = some a)
    (hb : r.budget_per_project_max_eur_m = some b) : a ≤ b := by
  unfold process_rows at hr
  rcases List.mem_map.mp hr with ⟨r2, hr2, hg⟩
  have hr2' := List.mem_filter.mp hr2
  rcases List.mem_map.mp hr2'.1 with ⟨r0, _, hf⟩
  by_cases hmin : r2.budget_per_project_min_eur_m = none
  · -- the re-derivation branch: r2 came out of stage one with no minimum,
    -- hence also no flat value, so the recomputation is the maximum itself
    rw [if_pos hmin] at hg
    have hflat : r2.budget_per_project_m = none := by
      rw [← hf] at hmin ⊢
      simpa using hmin
    have hmax2 : r2.budget_per_project_max_eur_m = some b := by
      rw [← hg] at hb
      simpa using hb
    have ha2 : compute_budget_per_project_m r2 = some a := by
      rw [← hg] at ha
      simpa using ha
    unfold compute_budget_per_project_m at ha2
    rw [hmin, hmax2, hflat] at ha2
    simp only [List.filterMap] at ha2
    simp at ha2
    simp [ha2]
  · rw [if_neg hmin] at hg
    subst hg
    have ha0 : compute_budget_per_project_m r0 = some a := by
      rw [← hf] at ha
      simpa using ha
    have hb0 : r0.budget_per_project_max_eur_m = some b := by
      rw [← hf] at hb
      simpa using hb
    exact compute_le_max r0 a b ha0 hb0

/-- The two-line body used by several witnesses: a topic line, a title
continuation and an `Around` overview line. -/
def wText : List Char :=
  chars "HORIZON-CL3-2026-01-BM-01: Title text\ncontinued title\nRIA 9.67 Around 4.835 2"

def emptyRow : Row :=
  { call_id := none, topic_id := [], action_type := none,
    opening_date := none, deadline_date := none, budget_eur_m := none,
    projects := none, budget_per_project_min_eur_m := none,
    budget_per_project_max_eur_m := none, budget_per_project_m := none,
    funding_percentage := none }

def c5Row : Row :=
  (process_rows (parse_calls wText) none none [] []).headD emptyRow

/-- Witness for C5 at a concrete parse. -/
theorem C5_budget_min_le_max_witness : (mkRat 4835 1000 : ℚ) ≤ mkRat 4835 1000 :=
  C5_budget_min_le_max wText none none [] [] c5Row (by decide)
    (mkRat 4835 1000) (mkRat 4835 1000) (by decide) (by decide)

/- ===================================================================
   Claims C1, C6, C8, C7, C3 and the C4 counterexample
   =================================================================== -/

/-- C1 (claim as stated is FALSE on the code; this theorem documents the
failing evaluation and the parser's own overview semantics backing the
intent): on the two-line input
`"HORIZON-CL3-2026-01-BM-01: Border management topic"` /
`"RIA 9.67 Around 4.835 2"`, `_try_join` inside
`_merge_split_identifier_lines` fires because the first line already
contains a complete topic id, gluing the overview line into the title, so
`parse_calls` returns the row with all five overview fields null — while
`_parse_overview_block` on the overview line alone yields exactly the
claimed `RIA`/9.67/4.835/4.835/2. -/
theorem C1_two_line_overview_scenario :
    (parse_calls (chars "HORIZON-CL3-2026-01-BM-01: Border management topic\nRIA 9.67 Around 4.835 2")).map
      (fun r => (r.topic_id, r.action_type, r.budget_eur_m,
        r.budget_per_project_min_eur_m, r.budget_per_project_max_eur_m,
        r.projects)) =
      [(chars "HORIZON-CL3-2026-01-BM-01", none, none, none, none, none)] ∧
    parse_overview_block [chars "RIA 9.67 Around 4.835 2"] 0 =
      some ({ action_type := chars "RIA", budget_eur_m := mkRat 967 100,
              budget_per_project_min_eur_m := mkRat 4835 1000,
              budget_per_project_max_eur_m := mkRat 4835 1000,
              projects := 2 }, 1) := by
  constructor
  · decide
  · decide

/-- C6: the three-line EDF scenario produces a single TOPIC record with
topic id `EDF-2024-RA-GROUND`, call id and family derived from the id's own
prefix (`EDF-2024-RA` / `RA`), budget 4.0 EUR m and type of action
`Research action`. -/
theorem C6_edf_topic_scenario :
    (parse_edf (chars "3.1 EDF-2024-RA-GROUND: Ground combat topic\nType of action: Research action\nIndicative budget for this topic: EUR 4 000 000")).map
      (fun r => (r.record_level, r.topic_id, r.call_id, r.call_family,
        r.indicative_budget_eur_m, r.type_of_action)) =
    [(chars "TOPIC", some (chars "EDF-2024-RA-GROUND"),
      some (chars "EDF-2024-RA"), some (chars "RA"), some (mkRat 4 1),
      chars "Research action")] := by decide

/-- One unfolding step of the substitution scan (definitional). -/
theorem go_cons (f : Nat) (c : Char) (rest : List Char) :
    hyphenLineBreakSubGo (f + 1) (c :: rest) =
      if isAsciiAlnum c then
        match hyphenBreakTail rest with
        | some (c2, rest') => c :: '-' :: c2 :: hyphenLineBreakSubGo f rest'
        | none => c :: hyphenLineBreakSubGo f rest
      else c :: hyphenLineBreakSubGo f rest := rfl

/-- The tail-match test on a nonempty input, written out (definitional). -/
theorem hbt_cons (d : Char) (t : List Char) :
    hyphenBreakTail (d :: t) =
      if isHyphenVariant d then
        if (t.takeWhile isPySpace).contains '\n' then
          match t.dropWhile isPySpace with
          | c2 :: rest'' => if isAsciiAlnum c2 then some (c2, rest'') else none
          | [] => none
        else none
      else none := rfl

/-- A successful tail match consumes at least the hyphen and the joined
character. -/
theorem hyphenBreakTail_length : ∀ (s : List Char) (c2 : Char)
    (r : List Char), hyphenBreakTail s = some (c2, r) → r.length < s.length := by
  intro s c2 r hm
  cases s with
  | nil => exact absurd hm (by simp [hyphenBreakTail])
  | cons hd tl =>
    rw [hbt_cons] at hm
    by_cases hh : isHyphenVariant hd = true
    · rw [if_pos hh] at hm
      by_cases hw : ((tl.takeWhile isPySpace).contains '\n') = true
      · rw [if_pos hw] at hm
        cases hdw : tl.dropWhile isPySpace with
        | nil => rw [hdw] at hm; exact absurd hm (by simp)
        | cons e r2 =>
          rw [hdw] at hm
          have hm2 : (if isAsciiAlnum e = true then some (e, r2) else none) =
              some (c2, r) := hm
          by_cases he : isAsciiAlnum e = true
          · rw [if_pos he] at hm2
            have heq := Option.some.inj hm2
            have h1 : r2 = r := congrArg Prod.snd heq
            have h2 : r2.length < (tl.dropWhile isPySpace).length := by
              rw [hdw]
              simp
            have h3 : (tl.dropWhile isPySpace).length ≤ tl.length :=
              (List.dropWhile_sublist isPySpace).length_le
            rw [← h1]
            simp only [List.length_cons]
            omega
          · rw [if_neg he] at hm2
            exact absurd hm2 (by simp)
      · rw [if_neg hw] at hm
        exact absurd hm (by simp)
    · rw [if_neg hh] at hm
      exact absurd hm (by simp)

/-- The scan result is fuel-independent once the fuel covers the input. -/
theorem hyphenGo_fuel : ∀ (f1 f2 : Nat) (s : List Char), s.length ≤ f1 →
    s.length ≤ f2 → hyphenLineBreakSubGo f1 s = hyphenLineBreakSubGo f2 s := by
  intro f1
  induction f1 with
  | zero =>
    intro f2 s h1 _
    have hs : s = [] := List.length_eq_zero.mp (Nat.le_zero.mp h1)
    subst hs
    cases f2 <;> rfl
  | succ n ih =>
    intro f2 s h1 h2
    cases s with
    | nil => cases f2 <;> rfl
    | cons c rest =>
      cases f2 with
      | zero => exact absurd h2 (by simp)
      | succ m =>
        have hr1 : rest.length ≤ n := by simpa using h1
        have hr2 : rest.length ≤ m := by simpa using h2
        rw [go_cons n, go_cons m]
        by_cases hc : isAsciiAlnum c = true
        · rw [if_pos hc, if_pos hc]
          cases ht : hyphenBreakTail rest with
          | none =>
            show c :: hyphenLineBreakSubGo n rest =
              c :: hyphenLineBreakSubGo m rest
            rw [ih m rest hr1 hr2]
          | some p =>
            rcases p with ⟨c2, rest'⟩
            have hlt : rest'.length < rest.length :=
              hyphenBreakTail_length rest c2 rest' ht
            show c :: '-' :: c2 :: hyphenLineBreakSubGo n rest' =
              c :: '-' :: c2 :: hyphenLineBreakSubGo m rest'
            rw [ih m rest' (le_of_lt (lt_of_lt_of_le hlt hr1))
              (le_of_lt (lt_of_lt_of_le hlt hr2))]
        · rw [if_neg hc, if_neg hc, ih m rest hr1 hr2]

/-- The substitution on a character the scan copies: a non-alphanumeric
head. -/
theorem sub_cons_not_alnum (c : Char) (rest : List Char)
    (h : isAsciiAlnum c = false) :
    hyphenLineBreakSub (c :: rest) = c :: hyphenLineBreakSub rest := by
  unfold hyphenLineBreakSub
  rw [show (c :: rest).length = rest.length + 1 from rfl, go_cons,
    if_neg (by simp [h])]

/-- The substitution on an alphanumeric head with no break after it. -/
theorem sub_cons_none (c : Char) (rest : List Char)
    (h : hyphenBreakTail rest = none) :
    hyphenLineBreakSub (c :: rest) = c :: hyphenLineBreakSub rest := by
  unfold hyphenLineBreakSub
  rw [show (c :: rest).length = rest.length + 1 from rfl, go_cons, h]
  split <;> rfl

/-- The substitution on a matched break: the joined pair is emitted with an
ASCII hyphen and the scan resumes after the second captured character. -/
theorem sub_cons_match (c : Char) (rest : List Char) (c2 : Char)
    (rest' : List Char) (hc : isAsciiAlnum c = true)
    (h : hyphenBreakTail rest = some (c2, rest')) :
    hyphenLineBreakSub (c :: rest) =
      c :: '-' :: c2 :: hyphenLineBreakSub rest' := by
  unfold hyphenLineBreakSub
  rw [show (c :: rest).length = rest.length + 1 from rfl, go_cons,
    if_pos hc, h]
  show c :: '-' :: c2 :: hyphenLineBreakSubGo rest.length rest' =
    c :: '-' :: c2 :: hyphenLineBreakSubGo rest'.length rest'
  rw [hyphenGo_fuel rest.length rest'.length rest'
    (le_of_lt (hyphenBreakTail_length rest c2 rest' h)) (le_refl _)]

theorem sub_single (c : Char) : hyphenLineBreakSub [c] = [c] :=
  sub_cons_none c [] rfl

/-- No tail match starts at a non-hyphen character. -/
theorem hbt_not_hyph (d : Char) (t : List Char)
    (h : isHyphenVariant d = false) : hyphenBreakTail (d :: t) = none := by
  rw [hbt_cons, if_neg (by simp [h])]

/-- The tail match at a hyphen variant, written out. -/
theorem hbt_hyph (d : Char) (t : List Char) (h : isHyphenVariant d = true) :
    hyphenBreakTail (d :: t) =
      if (t.takeWhile isPySpace).contains '\n' then
        match t.dropWhile isPySpace with
        | c2 :: rest'' => if isAsciiAlnum c2 then some (c2, rest'') else none
        | [] => none
      else none := by
  rw [hbt_cons, if_pos h]

/-- A hyphen variant is not `[A-Za-z0-9]`. -/
theorem hyph_not_alnum (c : Char) (h : isHyphenVariant c = true) :
    isAsciiAlnum c = false := by
  simp only [isHyphenVariant, Bool.or_eq_true, decide_eq_true_eq] at h
  rcases h with ((((h1 | h1) | h1) | h1) | h1) | h1 <;> subst h1 <;> decide

theorem alnum_not_hyph (c : Char) (h : isAsciiAlnum c = true) :
    isHyphenVariant c = false := by
  cases hx : isHyphenVariant c
  · rfl
  · rw [hyph_not_alnum c hx] at h
    cases h

/-- A whitespace code point is not `[A-Za-z0-9]`. -/
theorem space_not_alnum (c : Char) (h : isPySpace c = true) :
    isAsciiAlnum c = false := by
  simp only [isPySpace, Bool.or_eq_true, decide_eq_true_eq] at h
  rcases h with ((((((((((((h1 | h1) | h1) | h1) | h1) | h1) | h1) | h1) |
    h1) | h1) | h1) | h1) | h1) | h1 <;> subst h1 <;> decide

theorem alnum_not_space (c : Char) (h : isAsciiAlnum c = true) :
    isPySpace c = false := by
  cases hx : isPySpace c
  · rfl
  · rw [space_not_alnum c hx] at h
    cases h

/-- A whitespace run stops at a non-whitespace character, whatever
follows. -/
theorem takeWhile_append_stop (p : Char → Bool) (x : Char)
    (hx : p x = false) : ∀ (l t : List Char),
    (l ++ x :: t).takeWhile p = l.takeWhile p := by
  intro l t
  induction l with
  | nil =>
    rw [List.nil_append, List.takeWhile_cons, if_neg (by simp [hx])]
    rfl
  | cons c l ih =>
    rw [List.cons_append, List.takeWhile_cons, List.takeWhile_cons]
    by_cases hp : p c = true
    · rw [if_pos hp, if_pos hp, ih]
    · rw [if_neg hp, if_neg hp]

theorem dropWhile_append_stop (p : Char → Bool) (x : Char)
    (hx : p x = false) : ∀ (l t : List Char),
    (l ++ x :: t).dropWhile p = l.dropWhile p ++ x :: t := by
  intro l t
  induction l with
  | nil =>
    rw [List.nil_append, List.dropWhile_cons, if_neg (by simp [hx])]
    rfl
  | cons c l ih =>
    rw [List.cons_append, List.dropWhile_cons, List.dropWhile_cons]
    by_cases hp : p c = true
    · rw [if_pos hp, if_pos hp, ih]
    · rw [if_neg hp, if_neg hp, List.cons_append]

/-- The one real interference of `HYPHEN_LINE_BREAK.sub`: a context ending
in `[A-Za-z0-9]`, a hyphen variant and a whitespace run with a newline can
let an earlier match capture the next alphanumeric character (the scan is
left-to-right and non-overlapping), as in `"c-\nA-\nb" -> "c-A-\nb"`. -/
def pendingHyphen : List Char → Bool
  | [] => false
  | c :: rest =>
    (isAsciiAlnum c &&
      (match rest with
       | h :: ws => isHyphenVariant h && ws.all isPySpace && ws.contains '\n'
       | [] => false)) ||
    pendingHyphen rest

theorem pending_cons (c : Char) (rest : List Char) :
    pendingHyphen (c :: rest) =
      ((isAsciiAlnum c &&
        (match rest with
         | h :: ws => isHyphenVariant h && ws.all isPySpace &&
             ws.contains '\n'
         | [] => false)) ||
      pendingHyphen rest) := rfl

theorem pending_tail (c : Char) (rest : List Char)
    (h : pendingHyphen (c :: rest) = false) : pendingHyphen rest = false := by
  rw [pending_cons] at h
  exact (Bool.or_eq_false_iff.mp h).2

theorem pending_suffix : ∀ (w u4 : List Char),
    pendingHyphen (w ++ u4) = false → pendingHyphen u4 = false := by
  intro w
  induction w with
  | nil => intro u4 h; exact h
  | cons c w2 ih =>
    intro u4 h
    exact ih u4 (pending_tail c (w2 ++ u4) h)

theorem pending_intro (c d : Char) (ws : List Char)
    (hc : isAsciiAlnum c = true) (hd : isHyphenVariant d = true)
    (hws : ws.all isPySpace = true) (hnl : ws.contains '\n' = true) :
    pendingHyphen (c :: d :: ws) = true := by
  rw [pending_cons]
  simp [hc, hd, hws, hnl]
  exact Or.inl (by simpa using hnl)

/-- The joined break at the head of the input. -/
theorem hyphen_join_base (a h b : Char) (v : List Char)
    (ha : isAsciiAlnum a = true) (hh : isHyphenVariant h = true)
    (hb : isAsciiAlnum b = true) :
    hyphenLineBreakSub (a :: h :: '\n' :: b :: v) =
      hyphenLineBreakSub [a] ++ '-' :: b :: hyphenLineBreakSub v := by
  have hs1 : isPySpace '\n' = true := by decide
  have hs2 : isPySpace b = false := alnum_not_space b hb
  have hbt : hyphenBreakTail (h :: '\n' :: b :: v) = some (b, v) := by
    rw [hbt_hyph h _ hh]
    have htw : (('\n' :: b :: v).takeWhile isPySpace) = ['\n'] := by
      rw [List.takeWhile_cons, if_pos hs1, List.takeWhile_cons,
        if_neg (by simp [hs2])]
    have hdw : (('\n' :: b :: v).dropWhile isPySpace) = b :: v := by
      rw [List.dropWhile_cons, if_pos hs1, List.dropWhile_cons,
        if_neg (by simp [hs2])]
    rw [htw, hdw,
      if_pos (by decide : (['\n'] : List Char).contains '\n' = true)]
    show (if isAsciiAlnum b = true then some (b, v) else none) = some (b, v)
    rw [if_pos hb]
  rw [sub_cons_match a _ b v ha hbt, sub_single a]
  rfl

/-- The general join, by strong induction on the left context. -/
theorem hyphen_join_go : ∀ (n : Nat) (u : List Char), u.length ≤ n →
    pendingHyphen u = false → ∀ (a h b : Char) (v : List Char),
    isAsciiAlnum a = true → isHyphenVariant h = true →
    isAsciiAlnum b = true →
    hyphenLineBreakSub (u ++ a :: h :: '\n' :: b :: v) =
      hyphenLineBreakSub (u ++ [a]) ++ '-' :: b :: hyphenLineBreakSub v := by
  intro n
  induction n with
  | zero =>
    intro u hlen _ a h b v ha hh hb
    have hu : u = [] := List.length_eq_zero.mp (Nat.le_zero.mp hlen)
    subst hu
    exact hyphen_join_base a h b v ha hh hb
  | succ n ih =>
    intro u hlen hpend a h b v ha hh hb
    cases u with
    | nil => exact hyphen_join_base a h b v ha hh hb
    | cons c u2 =>
      have hlen2 : u2.length ≤ n := by simpa using hlen
      have hpend2 : pendingHyphen u2 = false := pending_tail c u2 hpend
      simp only [List.cons_append]
      by_cases hc : isAsciiAlnum c = true
      · cases u2 with
        | nil =>
          have hna : isHyphenVariant a = false := alnum_not_hyph a ha
          rw [List.nil_append, List.nil_append,
            sub_cons_none c _ (hbt_not_hyph a _ hna),
            sub_cons_none c _ (hbt_not_hyph a _ hna),
            hyphen_join_base a h b v ha hh hb]
          rfl
        | cons d u3 =>
          simp only [List.cons_append]
          by_cases hd : isHyphenVariant d = true
          · have hnsa : isPySpace a = false := alnum_not_space a ha
            have htw1 : ((u3 ++ a :: h :: '\n' :: b :: v).takeWhile
                isPySpace) = u3.takeWhile isPySpace :=
              takeWhile_append_stop _ a hnsa u3 _
            have htw2 : ((u3 ++ [a]).takeWhile isPySpace) =
                u3.takeWhile isPySpace := takeWhile_append_stop _ a hnsa u3 _
            have hdw1 : ((u3 ++ a :: h :: '\n' :: b :: v).dropWhile
                isPySpace) = u3.dropWhile isPySpace ++
                  a :: h :: '\n' :: b :: v :=
              dropWhile_append_stop _ a hnsa u3 _
            have hdw2 : ((u3 ++ [a]).dropWhile isPySpace) =
                u3.dropWhile isPySpace ++ [a] :=
              dropWhile_append_stop _ a hnsa u3 _
            by_cases hW : (u3.takeWhile isPySpace).contains '\n' = true
            · cases hD : u3.dropWhile isPySpace with
              | nil =>
                exfalso
                have hall : u3.all isPySpace = true := by
                  rw [List.all_eq_true]
                  intro x hx
                  exact List.dropWhile_eq_nil_iff.mp hD x hx
                have htwu : u3.takeWhile isPySpace = u3 := by
                  have h0 : u3.takeWhile isPySpace ++
                      u3.dropWhile isPySpace = u3 :=
                    List.takeWhile_append_dropWhile isPySpace u3
                  rw [hD, List.append_nil] at h0
                  exact h0
                have hcont : u3.contains '\n' = true := by
                  rw [← htwu]; exact hW
                rw [pending_intro c d u3 hc hd hall hcont] at hpend
                exact Bool.noConfusion hpend
              | cons e u4 =>
                by_cases he : isAsciiAlnum e = true
                · have hbt1 : hyphenBreakTail
                      (d :: (u3 ++ a :: h :: '\n' :: b :: v)) =
                      some (e, u4 ++ a :: h :: '\n' :: b :: v) := by
                    rw [hbt_hyph d _ hd, htw1, if_pos hW, hdw1, hD,
                      List.cons_append]
                    show (if isAsciiAlnum e = true then
                        some (e, u4 ++ a :: h :: '\n' :: b :: v)
                      else none) = some (e, u4 ++ a :: h :: '\n' :: b :: v)
                    rw [if_pos he]
                  have hbt2 : hyphenBreakTail (d :: (u3 ++ [a])) =
                      some (e, u4 ++ [a]) := by
                    rw [hbt_hyph d _ hd, htw2, if_pos hW, hdw2, hD,
                      List.cons_append]
                    show (if isAsciiAlnum e = true then some (e, u4 ++ [a])
                      else none) = some (e, u4 ++ [a])
                    rw [if_pos he]
                  have hWD : u3.takeWhile isPySpace ++ e :: u4 = u3 := by
                    have h0 : u3.takeWhile isPySpace ++
                        u3.dropWhile isPySpace = u3 :=
                      List.takeWhile_append_dropWhile isPySpace u3
                    rw [hD] at h0
                    exact h0
                  have hlen4 : u4.length ≤ n := by
                    have h3 : (u3.takeWhile isPySpace).length +
                        (u4.length + 1) = u3.length := by
                      have h5 := congrArg List.length hWD
                      simpa [List.length_append] using h5
                    have h4 : u3.length + 1 ≤ n := by simpa using hlen2
                    omega
                  have hpend4 : pendingHyphen u4 = false := by
                    refine pending_suffix
                      (c :: d :: (u3.takeWhile isPySpace ++ [e])) u4 ?_
                    have hshape :
                        (c :: d :: (u3.takeWhile isPySpace ++ [e])) ++ u4 =
                          c :: d :: u3 := by
                      rw [List.cons_append, List.cons_append,
                        List.append_assoc]
                      rw [show ([e] : List Char) ++ u4 = e :: u4 from rfl,
                        hWD]
                    rw [hshape]
                    exact hpend
                  rw [sub_cons_match c _ e _ hc hbt1,
                    sub_cons_match c _ e _ hc hbt2,
                    ih u4 hlen4 hpend4 a h b v ha hh hb]
                  rfl
                · have he' : isAsciiAlnum e = false := by simpa using he
                  have hbt1 : hyphenBreakTail
                      (d :: (u3 ++ a :: h :: '\n' :: b :: v)) = none := by
                    rw [hbt_hyph d _ hd, htw1, if_pos hW, hdw1, hD,
                      List.cons_append]
                    show (if isAsciiAlnum e = true then
                        some (e, u4 ++ a :: h :: '\n' :: b :: v)
                      else none) = none
                    rw [if_neg (by simp [he'])]
                  have hbt2 : hyphenBreakTail (d :: (u3 ++ [a])) = none := by
                    rw [hbt_hyph d _ hd, htw2, if_pos hW, hdw2, hD,
                      List.cons_append]
                    show (if isAsciiAlnum e = true then some (e, u4 ++ [a])
                      else none) = none
                    rw [if_neg (by simp [he'])]
                  have hih := ih (d :: u3) hlen2 hpend2 a h b v ha hh hb
                  simp only [List.cons_append] at hih
                  rw [sub_cons_none c _ hbt1, sub_cons_none c _ hbt2, hih]
                  rfl
            · have hbt1 : hyphenBreakTail
                  (d :: (u3 ++ a :: h :: '\n' :: b :: v)) = none := by
                rw [hbt_hyph d _ hd, htw1, if_neg hW]
              have hbt2 : hyphenBreakTail (d :: (u3 ++ [a])) = none := by
                rw [hbt_hyph d _ hd, htw2, if_neg hW]
              have hih := ih (d :: u3) hlen2 hpend2 a h b v ha hh hb
              simp only [List.cons_append] at hih
              rw [sub_cons_none c _ hbt1, sub_cons_none c _ hbt2, hih]
              rfl
          · have hd' : isHyphenVariant d = false := by simpa using hd
            have hih := ih (d :: u3) hlen2 hpend2 a h b v ha hh hb
            simp only [List.cons_append] at hih
            rw [sub_cons_none c _ (hbt_not_hyph d _ hd'),
              sub_cons_none c _ (hbt_not_hyph d _ hd'), hih]
            rfl
      · have hc' : isAsciiAlnum c = false := by simpa using hc
        rw [sub_cons_not_alnum c _ hc', sub_cons_not_alnum c _ hc',
          ih u2 hlen2 hpend2 a h b v ha hh hb]
        rfl

/-- C8: for every input string in which a `[A-Za-z0-9]` character, a
hyphen-variant code point of `HYPHEN_LINE_BREAK`, a line break and a
following `[A-Za-z0-9]` character occur — that is, for every decomposition
`u ++ a :: hy :: '\n' :: b :: v` of the input with `a`, `b` alphanumeric
and `hy` one of the six recognized hyphens — the substitution pass joins
the four characters into the single hyphenated `a :: '-' :: b`, keeping
the hyphen (normalized to ASCII `-` by the `\1-\2` replacement, so
`word-\nbreak` becomes `word-break`, not `wordbreak`), with the prefix and
the remaining tail processed as usual.  The guard `pendingHyphen u = false`
excludes the left-to-right scan's sole interference: a context ending
alphanumeric-hyphen-whitespace-with-newline lets an earlier non-overlapping
match capture `a` first (CPython agrees: `"c-\nA-\nb"` gives
`"c-A-\nb"`). -/
theorem C8_hyphen_line_break_join (u v : List Char) (a hy b : Char)
    (ha : isAsciiAlnum a = true) (hh : isHyphenVariant hy = true)
    (hb : isAsciiAlnum b = true) (hu : pendingHyphen u = false) :
    hyphenLineBreakSub (u ++ a :: hy :: '\n' :: b :: v) =
      hyphenLineBreakSub (u ++ [a]) ++ '-' :: b :: hyphenLineBreakSub v :=
  hyphen_join_go u.length u (le_refl _) hu a hy b v ha hh hb

/-- Witness for C8: an en-dash break joined inside running text, and the
spec's own `word-\nbreak` scenario. -/
theorem C8_hyphen_line_break_join_witness :
    hyphenLineBreakSub (chars "wor" ++ 'd' :: '\u2013' :: '\n' :: 'b' ::
        chars "reak") =
      hyphenLineBreakSub (chars "wor" ++ ['d']) ++ '-' :: 'b' ::
        hyphenLineBreakSub (chars "reak") ∧
    hyphenLineBreakSub (chars "word-\nbreak") = chars "word-break" :=
  ⟨C8_hyphen_line_break_join (chars "wor") (chars "reak") 'd' '\u2013' 'b'
    (by decide) (by decide) (by decide) (by decide), by decide⟩

/-- C7: with a minimum-budget filter given, a row none of whose per-project
budget fields is present is treated as budget `0`: `filter_rows` keeps it
exactly when the minimum is not strictly positive (other filter dimensions
inactive). -/
theorem C7_missing_budget_treated_as_zero (r : Row) (m : ℚ)
    (h1 : r.budget_per_project_min_eur_m = none)
    (h2 : r.budget_per_project_max_eur_m = none)
    (h3 : r.budget_per_project_m = none) :
    filter_rows [r] none (some m) [] [] = if 0 < m then [] else [r] := by
  have hcomp : compute_budget_per_project_m r = none := by
    unfold compute_budget_per_project_m
    rw [h1, h2, h3]
    rfl
  have hpass : rowPasses (allowedSet none) (some m) [] [] r =
      decide (¬ (0 : ℚ) < m) := by
    unfold rowPasses allowedSet
    rw [h1, hcomp]
    have hop : date_filter_match r.opening_date [] = true := rfl
    have hdl : date_filter_match r.deadline_date [] = true := rfl
    rw [hop, hdl]
    simp
  by_cases hm : (0 : ℚ) < m
  · rw [if_pos hm]
    unfold filter_rows
    simp [hpass, hm]
  · rw [if_neg hm]
    unfold filter_rows
    simp [hpass, hm]

/-- Witness for C7: an all-null row passes the zero minimum and fails a
positive one. -/
theorem C7_missing_budget_treated_as_zero_witness :
    filter_rows [emptyRow] none (some 1) [] [] =
      (if (0 : ℚ) < 1 then [] else [emptyRow]) ∧
    filter_rows [emptyRow] none (some 0) [] [] =
      (if (0 : ℚ) < 0 then [] else [emptyRow]) :=
  ⟨C7_missing_budget_treated_as_zero emptyRow 1 rfl rfl rfl,
   C7_missing_budget_treated_as_zero emptyRow 0 rfl rfl rfl⟩

/-- C3: the three regimes of `_date_filter_match`.  When the filter resolves
to a period end `e`, a row date matches iff it parses and is at most `e`
(and never matches when it fails to parse); when the filter is nonempty but
unstructured, matching is the case-insensitive prefix test; an empty filter
matches everything. -/
theorem C3_date_filter_regimes (d f : List Char) :
    (∀ e, parse_filter_range_ f = some e →
      date_filter_match (some d) f =
        (match parse_date_ (some d) with
         | some x => dateLeB x e
         | none => false)) ∧
    (parse_filter_range_ f = none → ¬ (pstrip f).isEmpty = true →
      date_filter_match (some d) f =
        (lowerStr (pstrip f)).isPrefixOf (lowerStr (pstrip d))) ∧
    ((pstrip f).isEmpty = true → date_filter_match (some d) f = true) := by
  refine ⟨?_, ?_, ?_⟩
  · intro e he
    unfold date_filter_match
    rw [he]
    cases parse_date_ (some d) <;> rfl
  · intro hnone hne
    unfold date_filter_match
    rw [hnone]
    unfold matchesPref
    rw [if_neg (by simpa using hne)]
  · intro hemp
    have hnone : parse_filter_range_ f = none := by
      unfold parse_filter_range_
      rw [if_pos hemp]
    unfold date_filter_match
    rw [hnone]
    unfold matchesPref
    rw [if_pos hemp]

/-- Witness for C3: the `2026-Q1` filter (period end 31 March 2026) keeps a
15 February deadline and rejects a 1 May one. -/
theorem C3_date_filter_regimes_witness :
    date_filter_match (some (chars "2026-02-15")) (chars "2026-Q1") = true ∧
    date_filter_match (some (chars "2026-05-01")) (chars "2026-Q1") = false := by
  constructor
  · rw [(C3_date_filter_regimes (chars "2026-02-15") (chars "2026-Q1")).1
      ⟨2026, 3, 31⟩ (by decide)]
    decide
  · rw [(C3_date_filter_regimes (chars "2026-05-01") (chars "2026-Q1")).1
      ⟨2026, 3, 31⟩ (by decide)]
    decide

/-- C4 counterexample (the claim that post-processed Horizon RIA/CSA rows
carry `funding_percentage = "100%"` is FALSE on the code): the pipeline's
post-processing never creates a `funding_percentage` entry, so a parsed RIA
row leaves it null. -/
theorem C4_counterexample_ria_no_funding :
    (process_rows (parse_calls wText) none none [] []).map
      (fun r => (r.action_type, r.funding_percentage)) =
      [(some (chars "RIA"), none)] := by decide

/- ===================================================================
   Scanner invariants (overview all-or-nothing; funding never set)
   =================================================================== -/

/-- The five overview-derived fields of a row are populated together or not
at all. -/
def rowOverviewAllOrNone (r : Row) : Prop :=
  (r.action_type ≠ none ∧ r.budget_eur_m ≠ none ∧ r.projects ≠ none ∧
   r.budget_per_project_min_eur_m ≠ none ∧
   r.budget_per_project_max_eur_m ≠ none) ∨
  (r.action_type = none ∧ r.budget_eur_m = none ∧ r.projects = none ∧
   r.budget_per_project_min_eur_m = none ∧
   r.budget_per_project_max_eur_m = none)

instance (r : Row) : Decidable (rowOverviewAllOrNone r) := by
  unfold rowOverviewAllOrNone; infer_instance

/-- Rows the scanner flushes: overview fields all-or-nothing, and the two
fields only the post-processor or nobody writes are absent. -/
def goodRow (r : Row) : Prop :=
  rowOverviewAllOrNone r ∧ r.funding_percentage = none ∧
  r.budget_per_project_m = none

/-- The pending overview fields of the scanner state are set together or
not at all. -/
def pendInv (st : ScanSt) : Prop :=
  (st.pendingActionType ≠ none ∧ st.pendingBudgetTotal ≠ none ∧
   st.pendingProjects ≠ none ∧ st.pendingPerMin ≠ none ∧
   st.pendingPerMax ≠ none) ∨
  (st.pendingActionType = none ∧ st.pendingBudgetTotal = none ∧
   st.pendingProjects = none ∧ st.pendingPerMin = none ∧
   st.pendingPerMax = none)

def scanInv (st : ScanSt) : Prop :=
  pendInv st ∧ ∀ r ∈ st.events, goodRow r

theorem scanInv_initSt : scanInv initSt := by
  constructor
  · right; exact ⟨rfl, rfl, rfl, rfl, rfl⟩
  · intro r hr; cases hr

/-- `flush_topic` turns the pending invariant into the flushed row's
all-or-nothing property and resets the pendings. -/
theorem flushTopic_inv (st : ScanSt) (h : scanInv st) :
    scanInv (flushTopic st) := by
  rcases h with ⟨hp, he⟩
  unfold flushTopic
  cases htid : st.pendingTopicId with
  | none => exact ⟨hp, he⟩
  | some tid =>
    refine ⟨Or.inr ⟨rfl, rfl, rfl, rfl, rfl⟩, ?_⟩
    intro r hr
    simp only [List.mem_append, List.mem_singleton] at hr
    rcases hr with hr | hr
    · exact he r hr
    · subst hr
      refine ⟨?_, rfl, rfl⟩
      rcases hp with hp | hp
      · exact Or.inl hp
      · exact Or.inr hp

/-- When both pending per-project fields are present, the trailing scavenge
loop leaves the state untouched. -/
theorem extraLoopGo_state (fuel : Nat) : ∀ (lines : List (List Char))
    (i : Nat) (st : ScanSt), st.pendingPerMin ≠ none →
    st.pendingPerMax ≠ none → (extraLoopGo fuel lines i st).2 = st := by
  induction fuel with
  | zero => intro lines i st _ _; rfl
  | succ n ih =>
    intro lines i st h1 h2
    have hfill : (decide (st.pendingPerMin = none) ||
        decide (st.pendingPerMax = none)) = false := by simp [h1, h2]
    unfold extraLoopGo
    split
    · dsimp only
      split
      · rfl
      · split
        · exact ih lines (i + 1) st h1 h2
        · split
          · rfl
          · split
            · rw [hfill]
              simp only [Bool.false_eq_true, if_false]
              exact ih lines (i + 1) st h1 h2
            · exact ih lines (i + 1) st h1 h2
    · rfl

/-- The gather loop preserves the scanner invariant: the only write is a
successful overview parse, which sets all five pending fields together, and
after it both per-project pendings are present, so the trailing scavenge is
inert. -/
theorem gatherLoopGo_inv (fuel : Nat) : ∀ (lines : List (List Char))
    (i : Nat) (st : ScanSt), scanInv st →
    scanInv (gatherLoopGo fuel lines i st).2 := by
  induction fuel with
  | zero => intro lines i st h; exact h
  | succ n ih =>
    intro lines i st h
    unfold gatherLoopGo
    split
    · dsimp only
      split
      · exact ih lines (i + 1) st h
      · split
        · exact h
        · split
          · exact h
          · split
            · exact h
            · split
              · exact ih lines (i + 1) st h
              · split
                · exact h
                · split
                  · split
                    · rw [extraLoopGo_state 2 lines]
                      · exact ⟨Or.inl ⟨Option.some_ne_none _,
                          Option.some_ne_none _, Option.some_ne_none _,
                          Option.some_ne_none _, Option.some_ne_none _⟩, h.2⟩
                      · exact Option.some_ne_none _
                      · exact Option.some_ne_none _
                    · exact ih lines (i + 1) st h
                  · exact ih lines (i + 1) st h
    · exact h

/-- The main loop preserves the scanner invariant. -/
theorem mainLoopGo_inv (fuel : Nat) : ∀ (lines : List (List Char))
    (i : Nat) (st : ScanSt), scanInv st →
    scanInv (mainLoopGo fuel lines i st) := by
  induction fuel with
  | zero => intro lines i st h; exact h
  | succ n ih =>
    intro lines i st h
    unfold mainLoopGo
    split
    · dsimp only
      split
      · exact ih lines (i + 1) st h
      · split
        · exact ih lines (i + 1) _ (flushTopic_inv st h)
        · split
          · exact ih lines (i + 1) _ h
          all_goals
            split
            · exact ih lines (i + 1) _ h
            · split
              · exact ih lines (i + 1) _ h
              · split
                · exact ih lines _ _ (flushTopic_inv _
                    (gatherLoopGo_inv (lines.length + 1) lines _ _
                      (flushTopic_inv st h)))
                · exact ih lines (i + 1) st h
    · exact h

/-- Every row flushed over a whole parse satisfies the row invariant. -/
theorem scanEvents_good (text : List Char) :
    ∀ r ∈ scanEvents text, goodRow r := by
  intro r hr
  exact (flushTopic_inv _ (mainLoopGo_inv _ _ _ _ scanInv_initSt)).2 r hr

/-- An element of `insertBest l r` is an element of `l` or is `r`. -/
theorem insertBest_mem : ∀ (l : List Row) (r x : Row),
    x ∈ insertBest l r → x ∈ l ∨ x = r := by
  intro l
  induction l with
  | nil =>
    intro r x hx
    exact Or.inr (List.mem_singleton.mp hx)
  | cons y ys ih =>
    intro r x hx
    unfold insertBest at hx
    split at hx
    · rcases List.mem_cons.mp hx with h | h
      · split at h
        · exact Or.inr h
        · subst h; exact Or.inl (List.mem_cons_self x ys)
      · exact Or.inl (List.mem_cons_of_mem y h)
    · rcases List.mem_cons.mp hx with h | h
      · subst h; exact Or.inl (List.mem_cons_self x ys)
      · rcases ih r x h with h2 | h2
        · exact Or.inl (List.mem_cons_of_mem y h2)
        · exact Or.inr h2

/-- An element of the best-by-topic fold comes from the accumulator or from
the folded rows. -/
theorem foldl_insertBest_mem : ∀ (l acc : List Row) (x : Row),
    x ∈ l.foldl insertBest acc → x ∈ acc ∨ x ∈ l := by
  intro l
  induction l with
  | nil => intro acc x hx; exact Or.inl hx
  | cons r rs ih =>
    intro acc x hx
    rcases ih (insertBest acc r) x hx with h | h
    · rcases insertBest_mem acc r x h with h2 | h2
      · exact Or.inl h2
      · subst h2; exact Or.inr (List.mem_cons_self x rs)
    · exact Or.inr (List.mem_cons_of_mem r h)

/-- Inserting into the sorted list is a permutation of consing. -/
theorem insertSorted_perm (r : Row) : ∀ l : List Row,
    List.Perm (insertSorted r l) (r :: l) := by
  intro l
  induction l with
  | nil => exact List.Perm.refl _
  | cons x xs ih =>
    unfold insertSorted
    split
    · exact List.Perm.refl _
    · exact (ih.cons x).trans (List.Perm.swap r x xs)

/-- The final sort permutes its input. -/
theorem sortRows_perm : ∀ l : List Row, List.Perm (sortRows l) l := by
  intro l
  induction l with
  | nil => exact List.Perm.refl _
  | cons x xs ih =>
    have h1 : sortRows (x :: xs) = insertSorted x (sortRows xs) := rfl
    rw [h1]
    exact (insertSorted_perm x (sortRows xs)).trans (ih.cons x)

/-- `parse_calls` is the sort of the best-by-topic fold of the flush-ordered
events. -/
theorem parse_calls_eq (text : List Char) :
    parse_calls text = sortRows ((scanEvents text).foldl insertBest []) := rfl

/-- Every row returned by `parse_calls` satisfies the row invariant. -/
theorem parse_calls_good (text : List Char) :
    ∀ r ∈ parse_calls text, goodRow r := by
  intro r hr
  rw [parse_calls_eq] at hr
  have hr2 := (sortRows_perm _).mem_iff.mp hr
  rcases foldl_insertBest_mem _ _ _ hr2 with h | h
  · cases h
  · exact scanEvents_good text r h

/- ===================================================================
   Claims C9 and C4 (amended)
   =================================================================== -/

/-- C9: in every row returned by `parse_calls` the five overview-derived
fields are all populated or all null — `flush_topic` copies them from the
pending state, which only a successful `_parse_overview_block` (setting all
five together) ever populates. -/
theorem C9_overview_all_or_none (text : List Char) (r : Row)
    (hr : r ∈ parse_calls text) : rowOverviewAllOrNone r :=
  (parse_calls_good text r hr).1

/-- Witness for C9 at a concrete parse with a populated overview. -/
theorem C9_overview_all_or_none_witness :
    rowOverviewAllOrNone ((parse_calls wText).headD emptyRow) :=
  C9_overview_all_or_none wText ((parse_calls wText).headD emptyRow)
    (by decide)

/-- C4 (amended): the pipeline never populates `funding_percentage` for a
Horizon row — the parser emits it null and the `_process_pdf_key`
post-processing never writes it, for every action type (there is no
RIA/CSA/IA funding inference anywhere in the Horizon path). -/
theorem C4_amended_funding_never_populated (text : List Char)
    (aT : Option (List (List Char))) (mB : Option ℚ) (oF dF : List Char)
    (r : Row) (hr : r ∈ process_rows (parse_calls text) aT mB oF dF) :
    r.funding_percentage = none := by
  unfold process_rows at hr
  rcases List.mem_map.mp hr with ⟨r2, hr2, hg⟩
  have h2 : r.funding_percentage = r2.funding_percentage := by
    rw [← hg]
    split <;> rfl
  have hr2f := (List.mem_filter.mp hr2).1
  rcases List.mem_map.mp hr2f with ⟨r0, hr0, hf⟩
  have h0 : r2.funding_percentage = r0.funding_percentage := by
    rw [← hf]
  rw [h2, h0]
  exact (parse_calls_good text r0 hr0).2.1

/-- Witness for the amended C4 at a concrete RIA row. -/
theorem C4_amended_funding_never_populated_witness :
    ((process_rows (parse_calls wText) none none [] []).headD
      emptyRow).funding_percentage = none :=
  C4_amended_funding_never_populated wText none none [] []
    ((process_rows (parse_calls wText) none none [] []).headD emptyRow)
    (by decide)

/- ===================================================================
   Order facts for the final sort (claim C10)
   =================================================================== -/

theorem strLtB_cons (x : Char) (xs : List Char) (y : Char) (ys : List Char) :
    strLtB (x :: xs) (y :: ys) =
      if x < y then true else if x = y then strLtB xs ys else false := rfl

theorem strLtB_trans : ∀ a b c : List Char, strLtB a b = true →
    strLtB b c = true → strLtB a c = true := by
  intro a
  induction a with
  | nil =>
    intro b c hab hbc
    cases b with
    | nil => exact absurd hab (by simp [strLtB])
    | cons y ys =>
      cases c with
      | nil => exact absurd hbc (by simp [strLtB])
      | cons z zs => rfl
  | cons x xs ih =>
    intro b c hab hbc
    cases b with
    | nil => exact absurd hab (by simp [strLtB])
    | cons y ys =>
      cases c with
      | nil => exact absurd hbc (by simp [strLtB])
      | cons z zs =>
        rw [strLtB_cons] at hab hbc ⊢
        by_cases h1 : x < y
        · by_cases h2 : y < z
          · rw [if_pos (lt_trans h1 h2)]
          · by_cases h3 : y = z
            · subst h3; rw [if_pos h1]
            · rw [if_neg h2, if_neg h3] at hbc
              exact absurd hbc (by simp)
        · by_cases h1e : x = y
          · subst h1e
            rw [if_neg h1, if_pos rfl] at hab
            by_cases h2 : x < z
            · rw [if_pos h2]
            · by_cases h3 : x = z
              · subst h3
                rw [if_neg h2, if_pos rfl] at hbc ⊢
                exact ih ys zs hab hbc
              · rw [if_neg h2, if_neg h3] at hbc
                exact absurd hbc (by simp)
          · rw [if_neg h1, if_neg h1e] at hab
            exact absurd hab (by simp)

theorem strLtB_eq_of_not : ∀ a b : List Char, strLtB a b = false →
    strLtB b a = false → a = b := by
  intro a
  induction a with
  | nil =>
    intro b hab _
    cases b with
    | nil => rfl
    | cons y ys => exact absurd hab (by simp [strLtB])
  | cons x xs ih =>
    intro b hab hba
    cases b with
    | nil => exact absurd hba (by simp [strLtB])
    | cons y ys =>
      rw [strLtB_cons] at hab hba
      by_cases h1 : x < y
      · rw [if_pos h1] at hab
        exact absurd hab (by simp)
      · by_cases h2 : y < x
        · rw [if_pos h2] at hba
          exact absurd hba (by simp)
        · have hxy : x = y := le_antisymm (le_of_not_lt h2) (le_of_not_lt h1)
          subst hxy
          rw [if_neg h1, if_pos rfl] at hab hba
          rw [ih ys hab hba]

theorem keyLtB_trans : ∀ a b c : Row, keyLtB a b = true →
    keyLtB b c = true → keyLtB a c = true := by
  intro a b c hab hbc
  unfold keyLtB at hab hbc ⊢
  simp only [Bool.or_eq_true, Bool.and_eq_true, decide_eq_true_eq] at hab hbc ⊢
  rcases hab with hab | ⟨habe, habt⟩
  · rcases hbc with hbc | ⟨hbce, hbct⟩
    · exact Or.inl (strLtB_trans _ _ _ hab hbc)
    · exact Or.inl (hbce ▸ hab)
  · rcases hbc with hbc | ⟨hbce, hbct⟩
    · exact Or.inl (habe ▸ hbc)
    · exact Or.inr ⟨habe.trans hbce, strLtB_trans _ _ _ habt hbct⟩

theorem keyLtB_conn : ∀ a b : Row, a.topic_id ≠ b.topic_id →
    keyLtB a b = true ∨ keyLtB b a = true := by
  intro a b hne
  unfold keyLtB
  simp only [Bool.or_eq_true, Bool.and_eq_true, decide_eq_true_eq]
  by_cases h1 : strLtB (a.call_id.getD []) (b.call_id.getD []) = true
  · exact Or.inl (Or.inl h1)
  · by_cases h2 : strLtB (b.call_id.getD []) (a.call_id.getD []) = true
    · exact Or.inr (Or.inl h2)
    · have hce : a.call_id.getD [] = b.call_id.getD [] :=
        strLtB_eq_of_not _ _ (Bool.not_eq_true _ ▸ h1)
          (Bool.not_eq_true _ ▸ h2)
      by_cases h3 : strLtB a.topic_id b.topic_id = true
      · exact Or.inl (Or.inr ⟨hce, h3⟩)
      · by_cases h4 : strLtB b.topic_id a.topic_id = true
        · exact Or.inr (Or.inr ⟨hce.symm, h4⟩)
        · exact absurd (strLtB_eq_of_not _ _ (Bool.not_eq_true _ ▸ h3)
            (Bool.not_eq_true _ ▸ h4)) hne

/-- Inserting a row whose topic id differs from every stored one keeps the
list strictly sorted by key. -/
theorem insertSorted_sorted (r : Row) : ∀ l : List Row,
    List.Pairwise (fun a b => keyLtB a b = true) l →
    (∀ y ∈ l, r.topic_id ≠ y.topic_id) →
    List.Pairwise (fun a b => keyLtB a b = true) (insertSorted r l) := by
  intro l
  induction l with
  | nil => intro _ _; exact List.pairwise_singleton _ r
  | cons x xs ih =>
    intro hs hd
    rcases List.pairwise_cons.mp hs with ⟨hx, hxs⟩
    unfold insertSorted
    split
    · next hrx =>
      refine List.pairwise_cons.mpr ⟨?_, hs⟩
      intro y hy
      rcases List.mem_cons.mp hy with h | h
      · subst h; exact hrx
      · exact keyLtB_trans r x y hrx (hx y h)
    · next hrx =>
      have hxr : keyLtB x r = true := by
        rcases keyLtB_conn r x (hd x (List.mem_cons_self x xs)) with h | h
        · exact absurd h hrx
        · exact h
      refine List.pairwise_cons.mpr ⟨?_, ih hxs ?_⟩
      · intro y hy
        rcases List.mem_cons.mp ((insertSorted_perm r xs).mem_iff.mp hy)
          with h | h
        · subst h; exact hxr
        · exact hx y h
      · intro y hy
        exact hd y (List.mem_cons_of_mem x hy)

/-- Sorting a list of rows with pairwise distinct topic ids yields a
strictly key-sorted list. -/
theorem sortRows_sorted : ∀ l : List Row,
    (l.map Row.topic_id).Nodup →
    List.Pairwise (fun a b => keyLtB a b = true) (sortRows l) := by
  intro l
  induction l with
  | nil => intro _; exact List.Pairwise.nil
  | cons x xs ih =>
    intro hnd
    rw [List.map_cons] at hnd
    rcases List.nodup_cons.mp hnd with ⟨hx, hxs⟩
    have h1 : sortRows (x :: xs) = insertSorted x (sortRows xs) := rfl
    rw [h1]
    refine insertSorted_sorted x (sortRows xs) (ih hxs) ?_
    intro y hy heq
    exact hx (heq ▸ List.mem_map_of_mem Row.topic_id
      ((sortRows_perm xs).mem_iff.mp hy))

/-- The per-topic insertion leaves the stored topic ids unchanged when the
incoming topic id is already present and appends it otherwise. -/
theorem insertBest_tids (r : Row) : ∀ l : List Row,
    (insertBest l r).map Row.topic_id =
      if r.topic_id ∈ l.map Row.topic_id then l.map Row.topic_id
      else l.map Row.topic_id ++ [r.topic_id] := by
  intro l
  induction l with
  | nil => simp [insertBest]
  | cons x xs ih =>
    unfold insertBest
    by_cases h : x.topic_id = r.topic_id
    · rw [if_pos h]
      have hmem : r.topic_id ∈ (x :: xs).map Row.topic_id := by
        rw [List.map_cons]
        exact h ▸ List.mem_cons_self x.topic_id (xs.map Row.topic_id)
      rw [if_pos hmem, List.map_cons, List.map_cons]
      split
      · rw [h]
      · rfl
    · rw [if_neg h, List.map_cons, List.map_cons, ih]
      by_cases hm : r.topic_id ∈ xs.map Row.topic_id
      · rw [if_pos hm, if_pos (List.mem_cons_of_mem _ hm)]
      · have hm2 : r.topic_id ∉ x.topic_id :: xs.map Row.topic_id := by
          intro hc
          rcases List.mem_cons.mp hc with hc | hc
          · exact h hc.symm
          · exact hm hc
        rw [if_neg hm, if_neg hm2, List.cons_append]

/-- The per-topic insertion preserves distinctness of the stored topic
ids. -/
theorem insertBest_nodup (r : Row) (l : List Row)
    (h : (l.map Row.topic_id).Nodup) :
    ((insertBest l r).map Row.topic_id).Nodup := by
  rw [insertBest_tids]
  split
  · exact h
  · next hm =>
    rw [List.nodup_append]
    exact ⟨h, List.nodup_singleton _, by
      intro a ha hb
      rw [List.mem_singleton] at hb
      exact hm (hb ▸ ha)⟩

/-- The best-by-topic fold keeps the stored topic ids distinct. -/
theorem foldl_insertBest_nodup : ∀ (l acc : List Row),
    (acc.map Row.topic_id).Nodup →
    ((l.foldl insertBest acc).map Row.topic_id).Nodup := by
  intro l
  induction l with
  | nil => intro acc h; exact h
  | cons r rs ih => intro acc h; exact ih _ (insertBest_nodup r acc h)

/- ===================================================================
   Claim C10
   =================================================================== -/

/-- C10: the rows returned by `parse_calls` are strictly ascending in the
key `(call_id or "", topic_id or "")` under code-point lexicographic tuple
comparison (topic ids are pairwise distinct after the per-topic fold, so
the order is strict and uniquely determined, independent of document
order). -/
theorem C10_output_sorted_by_key (text : List Char) :
    List.Pairwise (fun a b => keyLtB a b = true) (parse_calls text) := by
  rw [parse_calls_eq]
  exact sortRows_sorted _ (foldl_insertBest_nodup _ [] List.nodup_nil)

/- ===================================================================
   Claim C2 — per-topic dedup keeps the best-scoring earliest flush
   =================================================================== -/

/-- The rows of a list that carry a given topic id, in order. -/
def tfilter (tid : List Char) (l : List Row) : List Row :=
  l.filter (fun r => decide (r.topic_id = tid))

/-- The row the `score`-guarded dict update keeps after folding a run of
same-topic flushes over a stored row: each later row replaces the stored one
only when its score is strictly higher. -/
def pickBest : Row → List Row → Row
  | c, [] => c
  | c, r :: rs => pickBest (if scoreRow c < scoreRow r then r else c) rs

theorem tfilter_nil_of_not_mem (tid : List Char) (l : List Row)
    (h : tid ∉ l.map Row.topic_id) : tfilter tid l = [] := by
  refine List.filter_eq_nil_iff.mpr ?_
  intro r hr
  simp only [decide_eq_true_eq]
  intro he
  exact h (he ▸ List.mem_map_of_mem Row.topic_id hr)

/-- Over a list with distinct topic ids, the topic filter has at most one
element. -/
theorem tfilter_tail_nil (tid : List Char) (l : List Row)
    (h : (l.map Row.topic_id).Nodup) :
    ∀ c rest, tfilter tid l = c :: rest → rest = [] := by
  intro c rest heq
  cases rest with
  | nil => rfl
  | cons d rest2 =>
    exfalso
    have hsub : List.Sublist (tfilter tid l) l := List.filter_sublist l
    have hnd : ((tfilter tid l).map Row.topic_id).Nodup :=
      h.sublist (hsub.map Row.topic_id)
    have hcmem : c ∈ tfilter tid l := by
      rw [heq]; exact List.mem_cons_self c (d :: rest2)
    have hdmem : d ∈ tfilter tid l := by
      rw [heq]
      exact List.mem_cons_of_mem c (List.mem_cons_self d rest2)
    have hc : c.topic_id = tid := by
      have := (List.mem_filter.mp hcmem).2
      simpa using this
    have hd : d.topic_id = tid := by
      have := (List.mem_filter.mp hdmem).2
      simpa using this
    rw [heq, List.map_cons, List.map_cons] at hnd
    rcases List.nodup_cons.mp hnd with ⟨hn1, _⟩
    exact hn1 (by rw [hc, hd]; exact List.mem_cons_self tid _)

theorem tfilter_cons (tid : List Char) (x : Row) (l : List Row) :
    tfilter tid (x :: l) =
      if x.topic_id = tid then x :: tfilter tid l else tfilter tid l := by
  unfold tfilter
  rw [List.filter_cons]
  by_cases h : x.topic_id = tid
  · rw [if_pos (by simp [h]), if_pos h]
  · rw [if_neg (by simp [h]), if_neg h]

/-- What one best-by-topic insertion does to the rows of a given topic id:
a new id appends the row; an existing id keeps the stored row unless the
incoming one scores strictly higher. -/
theorem tfilter_insertBest (tid : List Char) : ∀ (l : List Row) (r : Row),
    (l.map Row.topic_id).Nodup →
    tfilter tid (insertBest l r) =
      if r.topic_id = tid then
        match tfilter tid l with
        | [] => [r]
        | c :: _ => [if scoreRow c < scoreRow r then r else c]
      else tfilter tid l := by
  intro l
  induction l with
  | nil =>
    intro r _
    by_cases h : r.topic_id = tid
    · simp [insertBest, tfilter_cons, tfilter, h]
    · simp [insertBest, tfilter_cons, tfilter, h]
  | cons x xs ih =>
    intro r hnd
    rw [List.map_cons] at hnd
    rcases List.nodup_cons.mp hnd with ⟨hx, hxs⟩
    by_cases h : x.topic_id = r.topic_id
    · by_cases hrt : r.topic_id = tid
      · have hxt : x.topic_id = tid := h.trans hrt
        have htf : tfilter tid xs = [] :=
          tfilter_nil_of_not_mem tid xs (by rw [← hxt]; exact hx)
        by_cases hsc : scoreRow x < scoreRow r
        · simp [insertBest, h, tfilter_cons, hxt, hrt, htf, gt_iff_lt, hsc]
        · simp [insertBest, h, tfilter_cons, hxt, hrt, htf, gt_iff_lt, hsc]
      · have hxt : ¬ x.topic_id = tid := fun hc => hrt (h.symm.trans hc)
        by_cases hsc : scoreRow x < scoreRow r
        · simp [insertBest, h, tfilter_cons, hxt, hrt, gt_iff_lt, hsc]
        · simp [insertBest, h, tfilter_cons, hxt, hrt, gt_iff_lt, hsc]
    · by_cases hxt : x.topic_id = tid
      · have hrt : ¬ r.topic_id = tid := fun hc => h (hxt.trans hc.symm)
        have hrt2 : ¬ tid = r.topic_id := fun hc => hrt hc.symm
        simp [insertBest, h, tfilter_cons, hxt, hrt, hrt2, ih r hxs]
      · simp [insertBest, h, tfilter_cons, hxt, ih r hxs]

/-- Folding flushed rows into the best-by-topic map: the rows of a topic id
reduce to the single score-selected representative. -/
theorem tfilter_foldl (tid : List Char) : ∀ (l acc : List Row),
    (acc.map Row.topic_id).Nodup →
    tfilter tid (l.foldl insertBest acc) =
      match (tfilter tid acc).head?, tfilter tid l with
      | none, [] => []
      | none, e :: es => [pickBest e es]
      | some c, es => [pickBest c es] := by
  intro l
  induction l with
  | nil =>
    intro acc hnd
    cases hacc : tfilter tid acc with
    | nil =>
      rw [List.foldl_nil, hacc]
      rfl
    | cons c rest =>
      have hr : rest = [] := tfilter_tail_nil tid acc hnd c rest hacc
      subst hr
      rw [List.foldl_nil, hacc]
      rfl
  | cons r rs ih =>
    intro acc hnd
    rw [List.foldl_cons, ih (insertBest acc r) (insertBest_nodup r acc hnd),
      tfilter_insertBest tid acc r hnd, tfilter_cons]
    by_cases hrt : r.topic_id = tid
    · rw [if_pos hrt, if_pos hrt]
      cases hacc : tfilter tid acc with
      | nil => rfl
      | cons c rest =>
        have hr0 : rest = [] := tfilter_tail_nil tid acc hnd c rest hacc
        subst hr0
        rfl
    · rw [if_neg hrt, if_neg hrt]

/-- The fold from the empty map, as used by `parse_calls`. -/
theorem tfilter_fold_nil (tid : List Char) (l : List Row) :
    tfilter tid (l.foldl insertBest []) =
      match tfilter tid l with
      | [] => []
      | e :: es => [pickBest e es] := by
  cases h : tfilter tid l with
  | nil =>
    rw [tfilter_foldl tid l [] List.nodup_nil, h]
    rfl
  | cons e es =>
    rw [tfilter_foldl tid l [] List.nodup_nil, h]
    rfl

/-- The selected representative scores at least the starting row. -/
theorem pickBest_ge : ∀ (rs : List Row) (c : Row),
    scoreRow c ≤ scoreRow (pickBest c rs) := by
  intro rs
  induction rs with
  | nil => intro c; exact le_refl _
  | cons r rs ih =>
    intro c
    unfold pickBest
    by_cases h : scoreRow c < scoreRow r
    · rw [if_pos h]; exact le_of_lt (lt_of_lt_of_le h (ih r))
    · rw [if_neg h]; exact ih c

/-- The selected representative is the first occurrence of the maximal
score: everything before it scores strictly lower, everything after it at
most as much. -/
theorem pickBest_split : ∀ (es : List Row) (c : Row),
    ∃ l1 l2, c :: es = l1 ++ pickBest c es :: l2 ∧
      (∀ x ∈ l1, scoreRow x < scoreRow (pickBest c es)) ∧
      (∀ x ∈ l2, scoreRow x ≤ scoreRow (pickBest c es)) := by
  intro es
  induction es with
  | nil =>
    intro c
    refine ⟨[], [], rfl, ?_, ?_⟩ <;> intro x hx <;> cases hx
  | cons r rs ih =>
    intro c
    by_cases h : scoreRow c < scoreRow r
    · have hre : pickBest c (r :: rs) = pickBest r rs := by
        rw [show pickBest c (r :: rs) =
          pickBest (if scoreRow c < scoreRow r then r else c) rs from rfl,
          if_pos h]
      rcases ih r with ⟨l1, l2, heq, h1, h2⟩
      refine ⟨c :: l1, l2, ?_, ?_, ?_⟩
      · rw [hre, List.cons_append, ← heq]
      · intro x hx
        rcases List.mem_cons.mp hx with hx | hx
        · subst hx; rw [hre]; exact lt_of_lt_of_le h (pickBest_ge rs r)
        · rw [hre]; exact h1 x hx
      · intro x hx; rw [hre]; exact h2 x hx
    · have hre : pickBest c (r :: rs) = pickBest c rs := by
        rw [show pickBest c (r :: rs) =
          pickBest (if scoreRow c < scoreRow r then r else c) rs from rfl,
          if_neg h]
      rcases ih c with ⟨l1, l2, heq, h1, h2⟩
      cases l1 with
      | nil =>
        rw [List.nil_append] at heq
        have hc : c = pickBest c rs := (List.cons.injEq _ _ _ _ ▸ heq).1
        have hrs : rs = l2 := (List.cons.injEq _ _ _ _ ▸ heq).2
        refine ⟨[], r :: l2, ?_, ?_, ?_⟩
        · rw [List.nil_append, hre, ← hc, hrs]
        · intro x hx; cases hx
        · intro x hx
          rcases List.mem_cons.mp hx with hx | hx
          · subst hx; rw [hre, ← hc]; exact le_of_not_lt h
          · rw [hre]; exact h2 x hx
      | cons a l1' =>
        rw [List.cons_append] at heq
        have ha : c = a := (List.cons.injEq _ _ _ _ ▸ heq).1
        have hrs : rs = l1' ++ pickBest c rs :: l2 :=
          (List.cons.injEq _ _ _ _ ▸ heq).2
        refine ⟨c :: r :: l1', l2, ?_, ?_, ?_⟩
        · rw [hre, List.cons_append, List.cons_append, ← hrs]
        · intro x hx
          rcases List.mem_cons.mp hx with hx | hx
          · subst hx
            rw [hre]
            have := h1 a (List.mem_cons_self a l1')
            rw [← ha] at this
            exact this
          · rcases List.mem_cons.mp hx with hx2 | hx2
            · subst hx2
              rw [hre]
              have hcp : scoreRow c < scoreRow (pickBest c rs) := by
                have := h1 a (List.mem_cons_self a l1')
                rw [← ha] at this
                exact this
              exact lt_of_le_of_lt (le_of_not_lt h) hcp
            · rw [hre]; exact h1 x (List.mem_cons_of_mem a hx2)
        · intro x hx; rw [hre]; exact h2 x hx

/-- C2: when a topic id is flushed more than once over a parse, the output
of `parse_calls` contains exactly one row with that topic id — the
score-selected representative of the flush sequence: the first occurrence
of the maximal overview-field score.  Everything flushed before it scores
strictly lower and everything after it at most as much (a later flush
replaces the stored row only when it scores strictly higher; ties keep the
earlier one). -/
theorem C2_duplicate_topic_best_kept (text : List Char) (tid : List Char)
    (hdup : 2 ≤ (tfilter tid (scanEvents text)).length) :
    ∃ c l1 l2,
      tfilter tid (parse_calls text) = [c] ∧
      tfilter tid (scanEvents text) = l1 ++ c :: l2 ∧
      (∀ x ∈ l1, scoreRow x < scoreRow c) ∧
      (∀ x ∈ l2, scoreRow x ≤ scoreRow c) := by
  have hne : tfilter tid (scanEvents text) ≠ [] := by
    intro hc
    rw [hc] at hdup
    exact absurd hdup (by decide)
  obtain ⟨e, es, hev⟩ : ∃ e es, tfilter tid (scanEvents text) = e :: es := by
    cases hx : tfilter tid (scanEvents text) with
    | nil => exact absurd hx hne
    | cons a b => exact ⟨a, b, rfl⟩
  have hB : tfilter tid ((scanEvents text).foldl insertBest []) =
      [pickBest e es] := by
    rw [tfilter_fold_nil tid (scanEvents text), hev]
  have hperm : List.Perm (tfilter tid (parse_calls text))
      [pickBest e es] := by
    rw [parse_calls_eq, ← hB]
    exact (sortRows_perm _).filter _
  have hsing : tfilter tid (parse_calls text) = [pickBest e es] :=
    List.perm_singleton.mp hperm
  rcases pickBest_split es e with ⟨l1, l2, heq, h1, h2⟩
  refine ⟨pickBest e es, l1, l2, hsing, ?_, h1, h2⟩
  rw [hev]
  exact heq

/-- A body with the same topic id flushed twice: once bare (a listing-style
occurrence, score 0) and once followed by a full overview block
(score 5). -/
def wText2 : List Char :=
  chars "HORIZON-CL3-2026-01-BM-01: Border topic\nfiller one\nSome separator text\nHORIZON-CL3-2026-01-BM-01: Border topic\nfiller two\nRIA 9.67 Around 4.835 2"

def wTid : List Char := chars "HORIZON-CL3-2026-01-BM-01"

/-- Witness for C2 at a concrete duplicated-topic parse. -/
theorem C2_duplicate_topic_best_kept_witness :
    ∃ c l1 l2,
      tfilter wTid (parse_calls wText2) = [c] ∧
      tfilter wTid (scanEvents wText2) = l1 ++ c :: l2 ∧
      (∀ x ∈ l1, scoreRow x < scoreRow c) ∧
      (∀ x ∈ l2, scoreRow x ≤ scoreRow c) :=
  C2_duplicate_topic_best_kept wText2 wTid (by decide)

end HCE
